import Mathlib

/-!
# minipro: block transfer, fuse codec, verification and the read and write workflows

A shallow embedding of `src/main.c`.

Conventions of the embedding.

* Every function that talks to the programmer is modelled by the list of
  calls it makes, in program order (`Ev`).  Arguments that are pointers into
  a page buffer (`buf + off`) are recorded by their offset `off`.
* C `int` quantities that are sizes, counts or indices (`size`,
  `read_buffer_size`, `blocks_count`, `i`, `addr`, `len`) are natural numbers.
  Signed `int` overflow is undefined in C, so the embedding describes the
  program on the range where its arithmetic does not overflow.
* The `char` accumulator `data_length` of `read_fuses` and `write_fuses` has
  a defined (wrapping) conversion and is modelled with it, see `to_char`.
* `ERROR(...)` terminates the process: the model stops and reports
  `Outcome.fatal` together with the calls made so far.
-/

namespace Minipro

/-! ## Data model -/

/-- One entry of a fuse declaration table (`fuse_decl_t`); the table itself
ends with an entry whose `name` is `NULL`, which the list leaves out. -/
structure fuse_decl_t where
  name : String
  minipro_cmd : Nat
  length : Nat
  offset : Nat
deriving DecidableEq, Repr

/-- The fields of `device_t` that `main.c` reads.  `fuses` is `none` for a
`NULL` pointer. -/
structure device_t where
  read_buffer_size : Nat
  write_buffer_size : Nat
  code_memory_size : Nat
  data_memory_size : Nat
  opts4 : Nat
  fuses : Option (List fuse_decl_t)
deriving DecidableEq, Repr

/-- Calls made by the program, in the order they are made. -/
inductive Ev where
  | update_status (percent : Nat)
  | update_status_OK
  | minipro_begin_transaction
  | minipro_end_transaction
  | minipro_read_block (type addr off len : Nat)
  | minipro_write_block (type addr off len : Nat)
  | minipro_read_fuses (type : Nat) (length : Int)
  | minipro_write_fuses (type : Nat) (length : Int) (buf : List Nat)
  | minipro_prepare_writing
  | minipro_get_status
  | minipro_protect_off
  | minipro_protect_on
deriving DecidableEq, Repr

/-- How a function ended: it returned, or `ERROR` terminated the process. -/
inductive Outcome where
  | ok
  | fatal (msg : String)
deriving DecidableEq, Repr

/-- Modelled from the spec: the macros `ERROR` and `ERROR2` of `error.h`,
which is not part of `main.c`.  A fatal error is reported and "terminates the
process"; the macros are given the message and its arguments only, so they
make no call to the device. -/
abbrev ERROR (msg : String) : Outcome :=
  Outcome.fatal msg

/-- Modelled from the spec: the macro `PERROR` of `error.h`, which is not
part of `main.c`: a file or resource failure is "reported with the underlying
system error text, fatal"; like `ERROR` it is given the message only and
makes no call to the device. -/
abbrev PERROR (msg : String) : Outcome :=
  Outcome.fatal msg

/-! ## RAM-centric IO operations -/

/-- The test `device->opts4 & 0x2000`. -/
def word_oriented (device : device_t) : Bool :=
  device.opts4 &&& 0x2000 != 0

/-- Body of the `for` loop of `read_page_ram` at index `i`. -/
def read_page_ram_body (device : device_t) (type size blocks_count i : Nat) : List Ev :=
  let addr := i * device.read_buffer_size
  let addr := if word_oriented device then addr >>> 1 else addr
  let len := device.read_buffer_size
  let len := if (i + 1) * len > size then size % len else len
  [Ev.update_status (i * 100 / blocks_count),
   Ev.minipro_read_block type addr (i * device.read_buffer_size) len]

/-- The loop `for(i = ...; i < blocks_count; i++)` of `read_page_ram`, with
`todo` iterations left. -/
def read_page_ram_loop (device : device_t) (type size blocks_count : Nat) :
    Nat → Nat → List Ev
  | 0, _ => []
  | todo + 1, i =>
    read_page_ram_body device type size blocks_count i ++
      read_page_ram_loop device type size blocks_count todo (i + 1)

/-- Number of iterations computed at the head of `read_page_ram`. -/
def read_blocks_count (device : device_t) (size : Nat) : Nat :=
  let blocks_count := size / device.read_buffer_size
  if size % device.read_buffer_size != 0 then blocks_count + 1 else blocks_count

/-- Embedding of `read_page_ram`. -/
def read_page_ram (device : device_t) (type size : Nat) : List Ev :=
  let blocks_count := read_blocks_count device size
  read_page_ram_loop device type size blocks_count blocks_count 0 ++ [Ev.update_status_OK]

/-- Body of the `for` loop of `write_page_ram` at index `i`. -/
def write_page_ram_body (device : device_t) (type size blocks_count i : Nat) : List Ev :=
  let addr := i * device.write_buffer_size
  let addr := if word_oriented device then addr >>> 1 else addr
  let len := device.write_buffer_size
  let len := if (i + 1) * len > size then size % len else len
  [Ev.update_status (i * 100 / blocks_count),
   Ev.minipro_write_block type addr (i * device.write_buffer_size) len]

/-- The loop of `write_page_ram`, with `todo` iterations left. -/
def write_page_ram_loop (device : device_t) (type size blocks_count : Nat) :
    Nat → Nat → List Ev
  | 0, _ => []
  | todo + 1, i =>
    write_page_ram_body device type size blocks_count i ++
      write_page_ram_loop device type size blocks_count todo (i + 1)

/-- Number of iterations computed at the head of `write_page_ram`: the
quotient is taken by `write_buffer_size`, the remainder test uses
`read_buffer_size`, as in the source. -/
def write_blocks_count (device : device_t) (size : Nat) : Nat :=
  let blocks_count := size / device.write_buffer_size
  if size % device.read_buffer_size != 0 then blocks_count + 1 else blocks_count

/-- Embedding of `write_page_ram`. -/
def write_page_ram (device : device_t) (type size : Nat) : List Ev :=
  let blocks_count := write_blocks_count device size
  write_page_ram_loop device type size blocks_count blocks_count 0 ++ [Ev.update_status_OK]

/-- A block handed to a block primitive: device address, offset of the data
in the page buffer, and length. -/
structure Block where
  addr : Nat
  off : Nat
  len : Nat
deriving DecidableEq, Repr

/-- The `minipro_read_block` calls of a trace. -/
def read_blocks : List Ev → List Block
  | [] => []
  | Ev.minipro_read_block _ addr off len :: es => ⟨addr, off, len⟩ :: read_blocks es
  | _ :: es => read_blocks es

/-- The `minipro_write_block` calls of a trace. -/
def write_blocks : List Ev → List Block
  | [] => []
  | Ev.minipro_write_block _ addr off len :: es => ⟨addr, off, len⟩ :: write_blocks es
  | _ :: es => write_blocks es

/-- Length of block `i` of a transfer of `size` bytes in chunks of `chunk`. -/
def block_len (chunk size i : Nat) : Nat :=
  if (i + 1) * chunk > size then size % chunk else chunk

/-- Device address of the block at buffer offset `off`. -/
def block_addr (device : device_t) (off : Nat) : Nat :=
  if word_oriented device then off >>> 1 else off

/-- Whether byte `j` of the page buffer lies in the range of block `b`. -/
def Block.covers (b : Block) (j : Nat) : Bool :=
  decide (b.off ≤ j) && decide (j < b.off + b.len)

/-- Block `i` as `read_page_ram` issues it. -/
def read_block_at (device : device_t) (size i : Nat) : Block :=
  ⟨block_addr device (i * device.read_buffer_size), i * device.read_buffer_size,
    block_len device.read_buffer_size size i⟩

/-- Block `i` as `write_page_ram` issues it. -/
def write_block_at (device : device_t) (size i : Nat) : Block :=
  ⟨block_addr device (i * device.write_buffer_size), i * device.write_buffer_size,
    block_len device.write_buffer_size size i⟩

/-! ## Verification -/

/-- Result of `compare_memory`: the returned `int` and the bytes behind the
out-pointers `c1`, `c2` after the call. -/
structure compare_result where
  idx : Int
  c1 : Nat
  c2 : Nat
deriving DecidableEq, Repr

/-- The loop `for(i = ...; i < size; i++)` of `compare_memory`, with `todo`
iterations left; `c1`, `c2` are the bytes behind the out-pointers on entry. -/
def compare_memory_loop (buf1 buf2 : List Nat) (c1 c2 : Nat) : Nat → Nat → compare_result
  | 0, _ => ⟨-1, c1, c2⟩
  | todo + 1, i =>
    if buf1.getD i 0 ≠ buf2.getD i 0 then
      ⟨(i : Int), buf1.getD i 0, buf2.getD i 0⟩
    else
      compare_memory_loop buf1 buf2 c1 c2 todo (i + 1)

/-- Embedding of `compare_memory`. -/
def compare_memory (buf1 buf2 : List Nat) (size : Nat) (c1 c2 : Nat) : compare_result :=
  compare_memory_loop buf1 buf2 c1 c2 size 0

/-! ## Fuses -/

/-- Conversion of an `int` value to `char` (8 bits, signed, wrapping), as
done by `data_length += fuses[i].length` on a `char` accumulator. -/
def to_char (x : Int) : Int :=
  (x + 128) % 256 - 128

/-- Modelled from the spec: `load_int` of the byte utilities, which are not
part of `main.c`; little-endian decoding of the `length` bytes of `buf`
starting at `offset` ("little-endian decoding at each member's
`(offset, length)`"). -/
def load_int (buf : List Nat) (offset : Nat) : Nat → Nat
  | 0 => 0
  | length + 1 => buf.getD offset 0 + 256 * load_int buf (offset + 1) length

/-- Modelled from the spec: `format_int` of the byte utilities, which are not
part of `main.c`; little-endian encoding of `value` into the `length` bytes
of `buf` starting at `offset`. -/
def format_int (buf : List Nat) (offset value : Nat) : Nat → List Nat
  | 0 => buf
  | length + 1 => format_int (buf.set offset (value % 256)) (offset + 1) (value / 256) length

/-- The opcode `fuses[i].minipro_cmd` of the entry at the head of the rest of
the table; at the terminating `{ NULL }` entry the value read is `0`.  The
value read at the terminator only reaches `opcode` after the last command. -/
def next_cmd : List fuse_decl_t → Nat
  | [] => 0
  | d :: _ => d.minipro_cmd

/-- What `read_fuses` or `write_fuses` has done when it stops: the device
calls made, the `Config_set_int(name, value)` calls made, and how it ended. -/
structure fuses_run where
  trace : List Ev
  sets : List (String × Nat)
  outcome : Outcome
deriving DecidableEq, Repr

/-- What the block guarded by
`fuses[i+1].name == NULL || fuses[i+1].minipro_cmd > opcode` does before it
resets `opcode` and `data_length`: the device call, the `Config_set_int`
calls, and the contents of `buf` afterwards. -/
structure run_action where
  ev : Ev
  sets : List (String × Nat)
  buf : List Nat

/-- The loop `for(i = 0; fuses[i].name; i++)` shared by `read_fuses` and
`write_fuses` (the two differ only in the guarded block, `act`).  The third
argument is the rest of the table from index `i` on; then come the locals
`data_length`, `opcode` and `buf`. -/
def fuses_loop (act : Nat → Int → List Nat → run_action) :
    List fuse_decl_t → Int → Nat → List Nat → fuses_run
  | [], _, _, _ => ⟨[], [], Outcome.ok⟩
  | d :: rest, data_length, opcode, buf =>
    let data_length := to_char (data_length + d.length)
    if d.minipro_cmd < opcode then
      ⟨[], [], ERROR "fuse_decls are not sorted"⟩
    else if rest.isEmpty || decide (next_cmd rest > opcode) then
      let a := act opcode data_length buf
      let r := fuses_loop act rest 0 (next_cmd rest) a.buf
      ⟨a.ev :: r.trace, a.sets ++ r.sets, r.outcome⟩
    else
      fuses_loop act rest data_length opcode buf

/-- The loop `for(d = 0; fuses[d].name; d++)` of `read_fuses`: unpacking of
the received `buf` into `Config_set_int` calls. -/
def read_fuses_unpack (buf : List Nat) (opcode : Nat) : List fuse_decl_t → List (String × Nat)
  | [] => []
  | d :: ds =>
    if d.minipro_cmd ≠ opcode then read_fuses_unpack buf opcode ds
    else (d.name, load_int buf d.offset d.length) :: read_fuses_unpack buf opcode ds

/-- The guarded block of `read_fuses`; `rd opcode length buf` is the content
of `buf` after `minipro_read_fuses(handle, opcode, length, buf)`. -/
def read_fuses_action (rd : Nat → Int → List Nat → List Nat) (fuses : List fuse_decl_t)
    (opcode : Nat) (data_length : Int) (buf : List Nat) : run_action :=
  let buf := rd opcode data_length buf
  ⟨Ev.minipro_read_fuses opcode data_length, read_fuses_unpack buf opcode fuses, buf⟩

/-- The loop `for(d = 0; fuses[d].name; d++)` of `write_fuses`: packing of
the values `Config_get_int(name)` into `buf`. -/
def write_fuses_pack (cfg : String → Nat) (opcode : Nat) :
    List fuse_decl_t → List Nat → List Nat
  | [], buf => buf
  | d :: ds, buf =>
    if d.minipro_cmd ≠ opcode then write_fuses_pack cfg opcode ds buf
    else write_fuses_pack cfg opcode ds (format_int buf d.offset (cfg d.name) d.length)

/-- The guarded block of `write_fuses`. -/
def write_fuses_action (cfg : String → Nat) (fuses : List fuse_decl_t)
    (opcode : Nat) (data_length : Int) (buf : List Nat) : run_action :=
  let buf := write_fuses_pack cfg opcode fuses buf
  ⟨Ev.minipro_write_fuses opcode data_length buf, [], buf⟩

/-- The part of `read_fuses` and `write_fuses` around the loop:
`minipro_begin_transaction` before it, `minipro_end_transaction` after it
when the loop has not terminated the process. -/
def in_transaction (r : fuses_run) : fuses_run :=
  match r.outcome with
  | Outcome.ok =>
    ⟨Ev.minipro_begin_transaction :: (r.trace ++ [Ev.minipro_end_transaction]), r.sets,
      Outcome.ok⟩
  | Outcome.fatal msg => ⟨Ev.minipro_begin_transaction :: r.trace, r.sets, Outcome.fatal msg⟩

/-- Embedding of `read_fuses` (the configuration file is taken to open).
`rd` is the effect of `minipro_read_fuses` on `buf`, `buf0` the content of
the local array `buf` on entry. -/
def read_fuses (rd : Nat → Int → List Nat → List Nat) (buf0 : List Nat)
    (fuses : List fuse_decl_t) : fuses_run :=
  in_transaction (fuses_loop (read_fuses_action rd fuses) fuses 0 (next_cmd fuses) buf0)

/-- Embedding of `write_fuses` (the configuration file is taken to open).
`cfg name` is the value of `Config_get_int(name)`, `buf0` the content of the
local array `buf` on entry. -/
def write_fuses (cfg : String → Nat) (buf0 : List Nat) (fuses : List fuse_decl_t) :
    fuses_run :=
  in_transaction (fuses_loop (write_fuses_action cfg fuses) fuses 0 (next_cmd fuses) buf0)

/-- Opcode and length of a `minipro_read_fuses` call. -/
def read_fuses_call : Ev → Option (Nat × Int)
  | Ev.minipro_read_fuses type length => some (type, length)
  | _ => none

/-- Opcode and length of a `minipro_write_fuses` call. -/
def write_fuses_call : Ev → Option (Nat × Int)
  | Ev.minipro_write_fuses type length _ => some (type, length)
  | _ => none

/-- The table is non-decreasing by opcode. -/
def sorted_by_opcode (fuses : List fuse_decl_t) : Prop :=
  fuses.Pairwise (fun d e => d.minipro_cmd ≤ e.minipro_cmd)

instance (fuses : List fuse_decl_t) : Decidable (sorted_by_opcode fuses) := by
  unfold sorted_by_opcode; infer_instance

/-- The maximal runs of consecutive declarations that share an opcode. -/
def opcode_runs : List fuse_decl_t → List (List fuse_decl_t)
  | [] => []
  | d :: ds =>
    match opcode_runs ds with
    | (e :: run) :: runs =>
      if d.minipro_cmd = e.minipro_cmd then (d :: e :: run) :: runs
      else [d] :: (e :: run) :: runs
    | _ => [[d]]

/-- The longest prefix of the table that is non-decreasing by opcode. -/
def sorted_init : List fuse_decl_t → List fuse_decl_t
  | [] => []
  | [d] => [d]
  | d :: e :: l =>
    if d.minipro_cmd ≤ e.minipro_cmd then d :: sorted_init (e :: l) else [d]

/-- Sum of the lengths of the members of a run. -/
def run_length (run : List fuse_decl_t) : Nat :=
  (run.map fuse_decl_t.length).sum

/-- The fields of two declarations do not overlap. -/
def disjoint_fields (d e : fuse_decl_t) : Prop :=
  d.offset + d.length ≤ e.offset ∨ e.offset + e.length ≤ d.offset

instance (d e : fuse_decl_t) : Decidable (disjoint_fields d e) := by
  unfold disjoint_fields; infer_instance

/-- Every field has length 1 to 4 and lies inside the 11-byte buffer, and
fields of declarations with the same opcode do not overlap. -/
def fields_ok (fuses : List fuse_decl_t) : Prop :=
  (∀ d ∈ fuses, 1 ≤ d.length ∧ d.length ≤ 4 ∧ d.offset + d.length ≤ 11) ∧
  fuses.Pairwise (fun d e => d.minipro_cmd = e.minipro_cmd → disjoint_fields d e)

instance (fuses : List fuse_decl_t) : Decidable (fields_ok fuses) := by
  unfold fields_ok; infer_instance

/-- Modelled from the spec: the device of the round-trip property, not part
of `main.c`, "stores the buffer written per opcode": the buffer it holds for
`opcode` after the calls of `written` is the one passed to the last
`minipro_write_fuses` with that opcode. -/
def stored_buffer : List Ev → Nat → Option (List Nat)
  | [], _ => none
  | e :: es, opcode =>
    match stored_buffer es opcode with
    | some b => some b
    | none =>
      match e with
      | Ev.minipro_write_fuses type _ buf => if type = opcode then some buf else none
      | _ => none

/-- Modelled from the spec: `minipro_read_fuses` against the device that
holds the buffers of `written`: the stored buffer for `opcode` is returned
in `buf`; `buf` is left as it is when nothing was written for `opcode`. -/
def stored_read_fuses (written : List Ev) (opcode : Nat) (_length : Int) (buf : List Nat) :
    List Nat :=
  match stored_buffer written opcode with
  | some b => b
  | none => buf

/-- The value a name has after a sequence of `Config_set_int` calls on a
fresh configuration: that of the last call for the name. -/
def config_value : List (String × Nat) → String → Option Nat
  | [], _ => none
  | (n, v) :: sets, name =>
    match config_value sets name with
    | some w => some w
    | none => if n = name then some v else none

/-! ## Higher-level logic: the read action -/

/-- The memory type selected with `-c` (`cmdopts.page`). -/
inductive page_t where
  | UNSPECIFIED
  | CODE
  | DATA
  | CONFIG
deriving DecidableEq, Repr

/-- The request codes of the block primitives that `main.c` passes on; their
numeric values are not used by `main.c` and are kept symbolic. -/
inductive mp_type where
  | MP_READ_CODE
  | MP_READ_DATA
  | MP_WRITE_CODE
  | MP_WRITE_DATA
deriving DecidableEq, Repr

/-- Calls made by the body of `action_read`, in the order they are made. -/
inductive read_call where
  | minipro_begin_transaction
  | read_page_file (filename : String) (type : mp_type) (name : String) (size : Nat)
  | read_fuses (filename : String) (fuses : List fuse_decl_t)
  | minipro_end_transaction
deriving DecidableEq, Repr

/-- Locals of `action_read` and the calls made so far. -/
structure read_state where
  code_filename : String
  data_filename : String
  config_filename : String
  calls : List read_call
deriving DecidableEq, Repr

/-- The statements under one `case` label of the `switch` of `action_read`,
up to the next label: the state afterwards, and whether `break` was
executed (`if(cmdopts.page) break;` breaks unless the page is unspecified). -/
def action_read_case (page : page_t) (device : device_t) :
    page_t → read_state → read_state × Bool
  | page_t.UNSPECIFIED, st =>
    ({ st with data_filename := "eeprom.bin", config_filename := "fuses.conf" }, false)
  | page_t.CODE, st =>
    ({ st with calls := st.calls ++
        [read_call.read_page_file st.code_filename mp_type.MP_READ_CODE "Code"
          device.code_memory_size] },
      decide (page ≠ page_t.UNSPECIFIED))
  | page_t.DATA, st =>
    (if device.data_memory_size ≠ 0 then
        { st with calls := st.calls ++
            [read_call.read_page_file st.data_filename mp_type.MP_READ_DATA "Data"
              device.data_memory_size] }
      else st,
      decide (page ≠ page_t.UNSPECIFIED))
  | page_t.CONFIG, st =>
    (match device.fuses with
      | some fuses =>
        { st with calls := st.calls ++ [read_call.read_fuses st.config_filename fuses] }
      | none => st,
      true)

/-- The `case` labels of the `switch`, from the label of `page` to the end. -/
def switch_labels : page_t → List page_t
  | page_t.UNSPECIFIED => [page_t.UNSPECIFIED, page_t.CODE, page_t.DATA, page_t.CONFIG]
  | page_t.CODE => [page_t.CODE, page_t.DATA, page_t.CONFIG]
  | page_t.DATA => [page_t.DATA, page_t.CONFIG]
  | page_t.CONFIG => [page_t.CONFIG]

/-- Execution of a `switch` body from a label on: the sections run one after
the other (fall-through) until one executes `break`. -/
def fall_through (section_of : page_t → read_state → read_state × Bool) :
    List page_t → read_state → read_state
  | [], st => st
  | label :: labels, st =>
    if (section_of label st).2 then (section_of label st).1
    else fall_through section_of labels (section_of label st).1

/-- Embedding of `action_read`: the calls its body makes. -/
def action_read (page : page_t) (filename : String) (device : device_t) : List read_call :=
  let st : read_state := ⟨filename, filename, filename, [read_call.minipro_begin_transaction]⟩
  (fall_through (action_read_case page device) (switch_labels page) st).calls ++
    [read_call.minipro_end_transaction]

/-- The files written by the calls of `action_read`, in order. -/
def output_files : List read_call → List String
  | [] => []
  | read_call.read_page_file filename _ _ _ :: cs => filename :: output_files cs
  | read_call.read_fuses filename _ :: cs => filename :: output_files cs
  | _ :: cs => output_files cs

/-! ## Wrappers for files, verification and the write action -/

/-- The device calls of a procedure and how it ended. -/
structure proc_run where
  trace : List Ev
  outcome : Outcome
deriving DecidableEq, Repr

/-- Sequencing of two procedures: the second runs only when the first has
returned; a fatal error in the first ends the process there. -/
def proc_run.and_then (r next : proc_run) : proc_run :=
  match r.outcome with
  | Outcome.ok => ⟨r.trace ++ next.trace, next.outcome⟩
  | Outcome.fatal msg => ⟨r.trace, Outcome.fatal msg⟩

/-- What the read action gets from the operating system: whether
`fopen(filename, "w")` succeeds, whether `malloc(size)` succeeds and whether
`Config_init(filename)` succeeds. -/
structure file_env where
  fopen_ok : String → Bool
  malloc_ok : Nat → Bool
  config_init_ok : String → Bool

/-- Embedding of `read_page_file`: `PERROR` ends the process when the file
does not open, `ERROR` when `malloc` fails; otherwise the device calls are
those of `read_page_ram`. -/
def read_page_file (env : file_env) (device : device_t) (filename : String)
    (type size : Nat) : proc_run :=
  if env.fopen_ok filename = false then ⟨[], PERROR "Couldn't open file for writing"⟩
  else if env.malloc_ok size = false then ⟨[], ERROR "Can't malloc"⟩
  else ⟨read_page_ram device type size, Outcome.ok⟩

/-- Embedding of `write_page_file` (the file is taken to open and `malloc` to
succeed): its device calls are those of `write_page_ram`. -/
def write_page_file (device : device_t) (type size : Nat) : proc_run :=
  ⟨write_page_ram device type size, Outcome.ok⟩

/-- What `verify_page_file` has done when it stops: its device calls, how it
ended, the sizes passed to the two `malloc` calls and the size passed to
`compare_memory`. -/
structure verify_run where
  trace : List Ev
  outcome : Outcome
  file_buffer_size : Nat
  chip_buffer_size : Nat
  compare_size : Nat
deriving DecidableEq, Repr

/-- Embedding of `verify_page_file` (the file is taken to open).  `file` is
the content of the file, so `get_file_size` returns `file.length`; `fsize`
is the value of the local `fsize`, which the function never assigns;
`chip_data` is the content of the buffer `chip_data` once `read_page_ram`
has returned. -/
def verify_page_file (device : device_t) (file chip_data : List Nat) (fsize type size : Nat) :
    verify_run :=
  let file_size := file.length
  let reading := Ev.minipro_begin_transaction :: read_page_ram device type size
  let idx := (compare_memory file chip_data file_size 0 0).idx
  if idx ≠ -1 then
    ⟨reading, ERROR "Verification failed at 0x%02x: 0x%02x != 0x%02x",
      file_size, fsize, file_size⟩
  else
    ⟨reading ++ [Ev.minipro_end_transaction], Outcome.ok, file_size, fsize, file_size⟩

/-- The fields of `cmdopts` that `action_write` reads. -/
structure cmdopts_t where
  page : page_t
  erase : Nat
  protect_off : Nat
  protect_on : Nat
  size_error : Nat
  size_nowarn : Nat
deriving DecidableEq, Repr

/-- What `action_write` gets from outside `main.c`: the content of the file,
the content of the read-back buffer after `read_page_ram`, the value of the
unassigned local `fsize` of `verify_page_file`, the values of
`Config_get_int`, the content of the local `buf` of `write_fuses` on entry,
and the numeric request codes. -/
structure write_env where
  file : List Nat
  chip_data : List Nat
  fsize : Nat
  cfg : String → Nat
  buf0 : List Nat
  code : mp_type → Nat

/-- What `action_write` has done when it stops: whether the size warning
was printed, its device calls, and how it ended. -/
structure write_run where
  warned : Bool
  trace : List Ev
  outcome : Outcome
deriving DecidableEq, Repr

/-- The size test at the head of `action_write` for a region of `needed`
bytes: whether the warning is printed, and whether `ERROR2` ends the
process. -/
def size_check (opts : cmdopts_t) (fsize needed : Nat) : Bool × Outcome :=
  if fsize ≠ needed then
    if opts.size_error ≠ 0 then (false, ERROR "Incorrect file size: %d (needed %d)")
    else if opts.size_nowarn = 0 then (true, Outcome.ok)
    else (false, Outcome.ok)
  else (false, Outcome.ok)

/-- The first `switch` of `action_write`. -/
def action_write_check (opts : cmdopts_t) (env : write_env) (device : device_t) :
    Bool × Outcome :=
  match opts.page with
  | page_t.UNSPECIFIED => size_check opts env.file.length device.code_memory_size
  | page_t.CODE => size_check opts env.file.length device.code_memory_size
  | page_t.DATA => size_check opts env.file.length device.data_memory_size
  | page_t.CONFIG => (false, Outcome.ok)

/-- The test `device->opts4 & 0xc000`. -/
def protect_support (device : device_t) : Bool :=
  device.opts4 &&& 0xc000 != 0

/-- Lines 420 to 425 of `action_write`: `minipro_begin_transaction`, then
`minipro_prepare_writing` and `minipro_end_transaction` under
`cmdopts.erase==0`. -/
def action_write_erase (opts : cmdopts_t) : List Ev :=
  [Ev.minipro_begin_transaction] ++
    (if opts.erase = 0 then [Ev.minipro_prepare_writing, Ev.minipro_end_transaction] else [])

/-- Lines 427 to 431 of `action_write`. -/
def action_write_status (opts : cmdopts_t) (device : device_t) : List Ev :=
  [Ev.minipro_begin_transaction, Ev.minipro_get_status] ++
    (if opts.protect_off = 0 ∧ protect_support device = true then [Ev.minipro_protect_off]
     else [])

/-- Write of a page followed by its verification. -/
def write_and_verify (env : write_env) (device : device_t) (wtype rtype size : Nat) :
    proc_run :=
  (write_page_file device wtype size).and_then
    ⟨(verify_page_file device env.file env.chip_data env.fsize rtype size).trace,
      (verify_page_file device env.file env.chip_data env.fsize rtype size).outcome⟩

/-- The second `switch` of `action_write`. -/
def action_write_region (opts : cmdopts_t) (env : write_env) (device : device_t) : proc_run :=
  match opts.page with
  | page_t.UNSPECIFIED =>
    write_and_verify env device (env.code mp_type.MP_WRITE_CODE) (env.code mp_type.MP_READ_CODE)
      device.code_memory_size
  | page_t.CODE =>
    write_and_verify env device (env.code mp_type.MP_WRITE_CODE) (env.code mp_type.MP_READ_CODE)
      device.code_memory_size
  | page_t.DATA =>
    write_and_verify env device (env.code mp_type.MP_WRITE_DATA) (env.code mp_type.MP_READ_DATA)
      device.data_memory_size
  | page_t.CONFIG =>
    match device.fuses with
    | some fuses =>
      ⟨(write_fuses env.cfg env.buf0 fuses).trace, (write_fuses env.cfg env.buf0 fuses).outcome⟩
    | none => ⟨[], Outcome.ok⟩

/-- Lines 449 to 455 of `action_write`. -/
def action_write_protect (opts : cmdopts_t) (device : device_t) : List Ev :=
  [Ev.minipro_end_transaction] ++
    (if opts.protect_on = 0 ∧ protect_support device = true then
      [Ev.minipro_begin_transaction, Ev.minipro_protect_on, Ev.minipro_end_transaction]
     else [])

/-- Embedding of `action_write`. -/
def action_write (opts : cmdopts_t) (env : write_env) (device : device_t) : write_run :=
  match (action_write_check opts env device).2 with
  | Outcome.fatal msg => ⟨(action_write_check opts env device).1, [], Outcome.fatal msg⟩
  | Outcome.ok =>
    let r := ((proc_run.mk (action_write_erase opts ++ action_write_status opts device)
        Outcome.ok).and_then (action_write_region opts env device)).and_then
          ⟨action_write_protect opts device, Outcome.ok⟩
    ⟨(action_write_check opts env device).1, r.trace, r.outcome⟩

/-- Number of transaction brackets left open by a trace, counted from the
number `open_now` open at its start; `none` when a
`minipro_end_transaction` comes with no bracket open. -/
def open_brackets : Nat → List Ev → Option Nat
  | open_now, [] => some open_now
  | open_now, Ev.minipro_begin_transaction :: es => open_brackets (open_now + 1) es
  | 0, Ev.minipro_end_transaction :: _ => none
  | open_now + 1, Ev.minipro_end_transaction :: es => open_brackets open_now es
  | open_now, _ :: es => open_brackets open_now es

/-- A trace is well bracketed: every `minipro_end_transaction` closes an open
bracket and no bracket is left open at the end. -/
def well_bracketed (trace : List Ev) : Prop :=
  open_brackets 0 trace = some 0

instance (trace : List Ev) : Decidable (well_bracketed trace) := by
  unfold well_bracketed; infer_instance

/-- The commands of the gated steps of the write action. -/
def is_step_command : Ev → Bool
  | Ev.minipro_prepare_writing => true
  | Ev.minipro_get_status => true
  | Ev.minipro_protect_off => true
  | Ev.minipro_protect_on => true
  | _ => false

/-- `read_fuses` as `action_read` calls it, with the exit of lines 260 to
262: `PERROR` ends the process when `Config_init` fails, before any device
call of `read_fuses`. -/
def read_fuses_file (env : file_env) (rd : Nat → Int → List Nat → List Nat)
    (buf0 : List Nat) (filename : String) (fuses : List fuse_decl_t) : proc_run :=
  if env.config_init_ok filename = false then ⟨[], PERROR "Couldn't create config"⟩
  else ⟨(read_fuses rd buf0 fuses).trace, (read_fuses rd buf0 fuses).outcome⟩

/-- The device commands of the calls made by `action_read`, up to the first
fatal error.  `env` says which files open and which allocations succeed,
`code` gives the numeric request codes, `rd` the effect of
`minipro_read_fuses` on `buf`, `buf0` the content of the local `buf` of
`read_fuses` on entry. -/
def action_read_run (env : file_env) (code : mp_type → Nat)
    (rd : Nat → Int → List Nat → List Nat) (buf0 : List Nat) (device : device_t) :
    List read_call → proc_run
  | [] => ⟨[], Outcome.ok⟩
  | read_call.minipro_begin_transaction :: cs =>
    (proc_run.mk [Ev.minipro_begin_transaction] Outcome.ok).and_then
      (action_read_run env code rd buf0 device cs)
  | read_call.minipro_end_transaction :: cs =>
    (proc_run.mk [Ev.minipro_end_transaction] Outcome.ok).and_then
      (action_read_run env code rd buf0 device cs)
  | read_call.read_page_file filename type _ size :: cs =>
    (read_page_file env device filename (code type) size).and_then
      (action_read_run env code rd buf0 device cs)
  | read_call.read_fuses filename fuses :: cs =>
    (read_fuses_file env rd buf0 filename fuses).and_then
      (action_read_run env code rd buf0 device cs)

/-- The device commands of `action_read`. -/
def action_read_trace (env : file_env) (code : mp_type → Nat)
    (rd : Nat → Int → List Nat → List Nat) (buf0 : List Nat) (page : page_t)
    (filename : String) (device : device_t) : proc_run :=
  action_read_run env code rd buf0 device (action_read page filename device)

/-- A block read or a fuse read. -/
def is_read_command : Ev → Bool
  | Ev.minipro_read_block _ _ _ _ => true
  | Ev.minipro_read_fuses _ _ => true
  | _ => false

/-- The progress values reported by a trace, in order (`none` for the final
"OK"). -/
def progress_reports : List Ev → List (Option Nat)
  | [] => []
  | Ev.update_status percent :: es => some percent :: progress_reports es
  | Ev.update_status_OK :: es => none :: progress_reports es
  | _ :: es => progress_reports es

/-- Calls that neither open or close a bracket nor belong to a gated step:
progress reports, block transfers and fuse transfers. -/
def is_plain : Ev → Bool
  | Ev.update_status _ => true
  | Ev.update_status_OK => true
  | Ev.minipro_read_block _ _ _ _ => true
  | Ev.minipro_write_block _ _ _ _ => true
  | Ev.minipro_read_fuses _ _ => true
  | Ev.minipro_write_fuses _ _ _ => true
  | _ => false

/-- A call of `action_read` that processes a region. -/
def is_region_call : read_call → Bool
  | read_call.read_page_file _ _ _ _ => true
  | read_call.read_fuses _ _ => true
  | _ => false

/-! ## Block transfer: lemmas -/

theorem read_blocks_append (xs ys : List Ev) :
    read_blocks (xs ++ ys) = read_blocks xs ++ read_blocks ys := by
  induction xs with
  | nil => rfl
  | cons e es ih => cases e <;> simp [read_blocks, ih]

theorem write_blocks_append (xs ys : List Ev) :
    write_blocks (xs ++ ys) = write_blocks xs ++ write_blocks ys := by
  induction xs with
  | nil => rfl
  | cons e es ih => cases e <;> simp [write_blocks, ih]

theorem read_blocks_loop (device : device_t) (type size bc : Nat) :
    ∀ todo i, read_blocks (read_page_ram_loop device type size bc todo i)
      = (List.range' i todo).map (read_block_at device size) := by
  intro todo
  induction todo with
  | zero => intro i; rfl
  | succ k ih =>
    intro i
    simp [read_page_ram_loop, read_page_ram_body, read_blocks, ih, List.range'_succ,
      read_block_at, block_addr, block_len]

theorem write_blocks_loop (device : device_t) (type size bc : Nat) :
    ∀ todo i, write_blocks (write_page_ram_loop device type size bc todo i)
      = (List.range' i todo).map (write_block_at device size) := by
  intro todo
  induction todo with
  | zero => intro i; rfl
  | succ k ih =>
    intro i
    simp [write_page_ram_loop, write_page_ram_body, write_blocks, ih, List.range'_succ,
      write_block_at, block_addr, block_len]

theorem read_blocks_read_page_ram (device : device_t) (type size : Nat) :
    read_blocks (read_page_ram device type size)
      = (List.range' 0 (read_blocks_count device size)).map (read_block_at device size) := by
  simp [read_page_ram, read_blocks_append, read_blocks_loop, read_blocks]

theorem write_blocks_write_page_ram (device : device_t) (type size : Nat) :
    write_blocks (write_page_ram device type size)
      = (List.range' 0 (write_blocks_count device size)).map (write_block_at device size) := by
  simp [write_page_ram, write_blocks_append, write_blocks_loop, write_blocks]

theorem read_blocks_count_eq_ceil (device : device_t) (size : Nat)
    (hC : 0 < device.read_buffer_size) :
    read_blocks_count device size
      = (size + device.read_buffer_size - 1) / device.read_buffer_size := by
  unfold read_blocks_count
  generalize device.read_buffer_size = C at hC ⊢
  have hdm := Nat.div_add_mod size C
  have hlt := Nat.mod_lt size hC
  by_cases hr : size % C = 0
  · simp only [hr, bne_self_eq_false, Bool.false_eq_true, if_false]
    symm
    apply Nat.div_eq_of_lt_le
    · rw [Nat.mul_comm]; omega
    · rw [Nat.mul_comm, Nat.mul_succ]; omega
  · have : (size % C != 0) = true := by simpa using hr
    simp only [this, if_true]
    symm
    apply Nat.div_eq_of_lt_le
    · rw [Nat.mul_comm, Nat.mul_succ]; omega
    · rw [Nat.mul_comm, Nat.mul_succ, Nat.mul_succ]; omega

theorem sum_full_blocks (C size : Nat) :
    ∀ k i, (i + k) * C ≤ size →
      (((List.range' i k).map (block_len C size)).sum = k * C) := by
  intro k
  induction k with
  | zero => intro i _; simp
  | succ k ih =>
    intro i h
    have h1 : (i + 1) * C ≤ size := by
      have : (i + 1) * C ≤ (i + (k + 1)) * C := Nat.mul_le_mul_right _ (by omega)
      omega
    have h2 : (i + 1 + k) * C ≤ size := by
      have : i + 1 + k = i + (k + 1) := by omega
      rw [this]; exact h
    simp only [List.range'_succ, List.map_cons, List.sum_cons, ih (i + 1) h2]
    have : block_len C size i = C := by
      unfold block_len
      rw [if_neg (by omega)]
    rw [this, Nat.succ_mul]; omega

theorem sum_read_block_lens (device : device_t) (size : Nat)
    (hC : 0 < device.read_buffer_size) :
    (((List.range' 0 (read_blocks_count device size)).map
        (read_block_at device size)).map Block.len).sum = size := by
  have hmap : ∀ n, ((List.range' 0 n).map (read_block_at device size)).map Block.len
      = (List.range' 0 n).map (block_len device.read_buffer_size size) := by
    intro n; simp [read_block_at, Function.comp_def]
  rw [hmap]
  unfold read_blocks_count
  generalize device.read_buffer_size = C at hC ⊢
  have hdm := Nat.div_add_mod size C
  have hlt := Nat.mod_lt size hC
  have hq : size / C * C ≤ size := Nat.div_mul_le_self size C
  by_cases hr : size % C = 0
  · simp only [hr, bne_self_eq_false, Bool.false_eq_true, if_false]
    rw [sum_full_blocks C size (size / C) 0 (by simpa using hq)]
    rw [Nat.mul_comm]; omega
  · have hb : (size % C != 0) = true := by simpa using hr
    simp only [hb, if_true]
    rw [List.range'_concat, List.map_append, List.sum_append,
      sum_full_blocks C size (size / C) 0 (by simpa using hq)]
    have hlast : block_len C size (size / C) = size % C := by
      unfold block_len
      rw [if_pos]
      rw [Nat.succ_mul, Nat.mul_comm]; omega
    simp only [Nat.one_mul, Nat.zero_add, List.map_cons, List.map_nil, List.sum_cons,
      List.sum_nil, hlast]
    rw [Nat.mul_comm]; omega

theorem getElem?_map_range' {α : Type} (f : Nat → α) (n i : Nat) (b : α)
    (h : ((List.range' 0 n).map f)[i]? = some b) : i < n ∧ b = f i := by
  rw [List.getElem?_map] at h
  by_cases hi : i < n
  · rw [List.getElem?_eq_getElem (by simpa using hi)] at h
    simp at h
    exact ⟨hi, h.symm⟩
  · rw [List.getElem?_eq_none (by simpa using hi)] at h
    simp at h

/-! ## Block transfer: results -/

/-- C1: for a read block size `C > 0`, `read_page_ram` issues exactly
`ceil(S/C)` `minipro_read_block` calls; every block but the last has length
`C`, the last has length `S mod C` (or `C` when `C` divides `S`), and the
lengths add up to `S`.  With `C = 64`: `S = 128` gives lengths 64, 64 and
`S = 100` gives lengths 64, 36. -/
theorem read_page_ram_blocks (device : device_t) (type size : Nat)
    (hS : 0 < size) (hC : 0 < device.read_buffer_size) :
    (read_blocks (read_page_ram device type size)).length
        = (size + device.read_buffer_size - 1) / device.read_buffer_size ∧
    (∀ i b, (read_blocks (read_page_ram device type size))[i]? = some b →
        b.len = if i + 1 < (read_blocks (read_page_ram device type size)).length
                then device.read_buffer_size
                else if size % device.read_buffer_size = 0 then device.read_buffer_size
                else size % device.read_buffer_size) ∧
    ((read_blocks (read_page_ram device type size)).map Block.len).sum = size ∧
    (device.read_buffer_size = 64 → size = 128 →
        (read_blocks (read_page_ram device type size)).map Block.len = [64, 64]) ∧
    (device.read_buffer_size = 64 → size = 100 →
        (read_blocks (read_page_ram device type size)).map Block.len = [64, 36]) := by
  have _ := hS
  have hlen : (read_blocks (read_page_ram device type size)).length
      = read_blocks_count device size := by
    simp [read_blocks_read_page_ram]
  have hlens : (read_blocks (read_page_ram device type size)).map Block.len
      = (List.range' 0 (read_blocks_count device size)).map
          (block_len device.read_buffer_size size) := by
    simp [read_blocks_read_page_ram, read_block_at, Function.comp_def]
  refine ⟨?_, ?_, ?_, ?_, ?_⟩
  · rw [hlen, read_blocks_count_eq_ceil device size hC]
  · intro i b hb
    rw [hlen]
    rw [read_blocks_read_page_ram] at hb
    obtain ⟨hi, rfl⟩ := getElem?_map_range' _ _ _ _ hb
    show block_len device.read_buffer_size size i = _
    unfold read_blocks_count at hi ⊢
    unfold block_len
    generalize device.read_buffer_size = C at hC hi ⊢
    have hdm := Nat.div_add_mod size C
    have hlt := Nat.mod_lt size hC
    have hmul : C * (size / C) = size / C * C := Nat.mul_comm _ _
    by_cases hr : size % C = 0
    · simp only [hr, bne_self_eq_false, Bool.false_eq_true, if_false, if_true] at hi ⊢
      have hle : (i + 1) * C ≤ size / C * C := Nat.mul_le_mul_right _ (by omega)
      rw [if_neg (by omega)]
      simp
    · have hbne : (size % C != 0) = true := by simpa using hr
      simp only [hbne, if_true, hr, if_false] at hi ⊢
      by_cases hlast : i + 1 < size / C + 1
      · have hle : (i + 1) * C ≤ size / C * C := Nat.mul_le_mul_right _ (by omega)
        rw [if_neg (by omega), if_pos hlast]
      · have hiq : i = size / C := by omega
        rw [if_neg hlast, if_pos]
        rw [hiq, Nat.succ_mul]; omega
  · rw [read_blocks_read_page_ram]
    exact sum_read_block_lens device size hC
  · intro h64 h128
    rw [hlens]; unfold read_blocks_count; rw [h64, h128]; decide
  · intro h64 h100
    rw [hlens]; unfold read_blocks_count; rw [h64, h100]; decide

/-- Witness for C1: a 100-byte region read in chunks of 64. -/
theorem read_page_ram_blocks_witness :
    (0 < 100 ∧ 0 < (device_t.mk 64 64 128 0 0 none).read_buffer_size) ∧
    (read_blocks (read_page_ram (device_t.mk 64 64 128 0 0 none) 0 100)).length = 2 ∧
    ((read_blocks (read_page_ram (device_t.mk 64 64 128 0 0 none) 0 100)).map Block.len).sum
      = 100 :=
  ⟨⟨by decide, by decide⟩,
   (read_page_ram_blocks (device_t.mk 64 64 128 0 0 none) 0 100 (by decide) (by decide)).1,
   (read_page_ram_blocks (device_t.mk 64 64 128 0 0 none) 0 100 (by decide) (by decide)).2.2.1⟩

/-- C2 fails on the code: with write block size 64, read block size 50 and a
100-byte region, `write_page_ram` issues one `minipro_write_block` call,
while `ceil(100/64) = 2`. -/
theorem write_page_ram_block_count_defect :
    (write_blocks (write_page_ram (device_t.mk 50 64 100 0 0 none) 0 100)).length = 1 ∧
    (100 + (device_t.mk 50 64 100 0 0 none).write_buffer_size - 1)
      / (device_t.mk 50 64 100 0 0 none).write_buffer_size = 2 := by
  decide

/-- C3 fails on the code: with write block size 64, read block size 50 and a
100-byte region, the only block `write_page_ram` issues is `[0, 64)`, so byte
64 of the input buffer (and every byte after it) is never sent. -/
theorem write_page_ram_coverage_defect :
    write_blocks (write_page_ram (device_t.mk 50 64 100 0 0 none) 0 100) = [⟨0, 0, 64⟩] ∧
    (write_blocks (write_page_ram (device_t.mk 50 64 100 0 0 none) 0 100)).all
      (fun b => !b.covers 64) = true := by
  decide

/-- C4: block `i` of `read_page_ram` (resp. `write_page_ram`) is issued with
buffer offset `i * C` and device address `(i * C) >> 1` when
`opts4 & 0x2000` is set and `i * C` otherwise, where `C` is the read (resp.
write) block size. -/
theorem block_address_translation (device : device_t) (type size i : Nat) :
    (∀ b, (read_blocks (read_page_ram device type size))[i]? = some b →
      b.off = i * device.read_buffer_size ∧
      b.addr = if device.opts4 &&& 0x2000 ≠ 0 then (i * device.read_buffer_size) >>> 1
               else i * device.read_buffer_size) ∧
    (∀ b, (write_blocks (write_page_ram device type size))[i]? = some b →
      b.off = i * device.write_buffer_size ∧
      b.addr = if device.opts4 &&& 0x2000 ≠ 0 then (i * device.write_buffer_size) >>> 1
               else i * device.write_buffer_size) := by
  constructor
  · intro b hb
    rw [read_blocks_read_page_ram] at hb
    obtain ⟨_, rfl⟩ := getElem?_map_range' _ _ _ _ hb
    simp [read_block_at, block_addr, word_oriented]
  · intro b hb
    rw [write_blocks_write_page_ram] at hb
    obtain ⟨_, rfl⟩ := getElem?_map_range' _ _ _ _ hb
    simp [write_block_at, block_addr, word_oriented]

/-- Witness for C4: block 1 of a 128-byte transfer on a word-oriented device
with 64-byte blocks has buffer offset 64 and device address 32. -/
theorem block_address_translation_witness :
    ((read_blocks (read_page_ram (device_t.mk 64 64 128 0 0x2000 none) 0 128))[1]?
        = some ⟨32, 64, 64⟩ ∧
      (write_blocks (write_page_ram (device_t.mk 64 64 128 0 0x2000 none) 0 128))[1]?
        = some ⟨32, 64, 64⟩) ∧
    ((Block.mk 32 64 64).off = 1 * 64 ∧ (Block.mk 32 64 64).addr = 32) ∧
    ((Block.mk 32 64 64).off = 1 * 64 ∧ (Block.mk 32 64 64).addr = 32) :=
  ⟨⟨by decide, by decide⟩,
   (block_address_translation (device_t.mk 64 64 128 0 0x2000 none) 0 128 1).1 _ (by decide),
   (block_address_translation (device_t.mk 64 64 128 0 0x2000 none) 0 128 1).2 _ (by decide)⟩

/-! ## Verification: results -/

theorem compare_memory_loop_no_mismatch (buf1 buf2 : List Nat) (c1 c2 : Nat) :
    ∀ todo i, (∀ j, i ≤ j → j < i + todo → buf1.getD j 0 = buf2.getD j 0) →
      compare_memory_loop buf1 buf2 c1 c2 todo i = ⟨-1, c1, c2⟩ := by
  intro todo
  induction todo with
  | zero => intro i _; rfl
  | succ k ih =>
    intro i h
    have h0 := h i (Nat.le_refl i) (by omega)
    rw [compare_memory_loop, if_neg (by simpa using h0)]
    exact ih (i + 1) (fun j h1 h2 => h j (by omega) (by omega))

theorem compare_memory_loop_first (buf1 buf2 : List Nat) (c1 c2 k : Nat)
    (hk : buf1.getD k 0 ≠ buf2.getD k 0) :
    ∀ todo i, i ≤ k → k < i + todo →
      (∀ j, i ≤ j → j < k → buf1.getD j 0 = buf2.getD j 0) →
      compare_memory_loop buf1 buf2 c1 c2 todo i
        = ⟨(k : Int), buf1.getD k 0, buf2.getD k 0⟩ := by
  intro todo
  induction todo with
  | zero => intro i h1 h2 _; omega
  | succ n ih =>
    intro i h1 h2 h
    by_cases hik : i = k
    · subst hik
      rw [compare_memory_loop, if_pos hk]
    · have h0 := h i (Nat.le_refl i) (by omega)
      rw [compare_memory_loop, if_neg (by simpa using h0)]
      exact ih (i + 1) (by omega) (by omega) (fun j h3 h4 => h j (by omega) h4)

theorem compare_memory_loop_idx (buf1 buf2 : List Nat) (c1 c2 : Nat) :
    ∀ todo i, (compare_memory_loop buf1 buf2 c1 c2 todo i).idx = -1 →
      ∀ j, i ≤ j → j < i + todo → buf1.getD j 0 = buf2.getD j 0 := by
  intro todo
  induction todo with
  | zero => intro i _ j h1 h2; omega
  | succ n ih =>
    intro i h j h1 h2
    rw [compare_memory_loop] at h
    by_cases h0 : buf1.getD i 0 = buf2.getD i 0
    · rw [if_neg (by simpa using h0)] at h
      by_cases hij : j = i
      · subst hij; exact h0
      · exact ih (i + 1) h j (by omega) (by omega)
    · rw [if_pos h0] at h
      simp only at h
      omega

/-- C5: on buffers of length `n`, `compare_memory` returns the least index
`k < n` at which the buffers differ, with `c1 = buf1[k]` and `c2 = buf2[k]`;
it returns `-1` exactly when the buffers agree on all `n` bytes.  Hence a
buffer compared with itself gives `-1`, and buffers that differ only at `k`
give `(k, buf1[k], buf2[k])`. -/
theorem compare_memory_first_mismatch (buf1 buf2 : List Nat) (n c1 c2 : Nat)
    (h1 : buf1.length = n) (h2 : buf2.length = n) :
    (∀ k, k < n → buf1.getD k 0 ≠ buf2.getD k 0 →
        (∀ j, j < k → buf1.getD j 0 = buf2.getD j 0) →
        compare_memory buf1 buf2 n c1 c2 = ⟨(k : Int), buf1.getD k 0, buf2.getD k 0⟩) ∧
    ((compare_memory buf1 buf2 n c1 c2).idx = -1 ↔
        ∀ j, j < n → buf1.getD j 0 = buf2.getD j 0) ∧
    (compare_memory buf1 buf1 n c1 c2).idx = -1 ∧
    (∀ k, k < n → buf1.getD k 0 ≠ buf2.getD k 0 →
        (∀ j, j < n → j ≠ k → buf1.getD j 0 = buf2.getD j 0) →
        compare_memory buf1 buf2 n c1 c2 = ⟨(k : Int), buf1.getD k 0, buf2.getD k 0⟩) := by
  have _ := h1
  have _ := h2
  refine ⟨?_, ⟨?_, ?_⟩, ?_, ?_⟩
  · intro k hk hne hlt
    exact compare_memory_loop_first buf1 buf2 c1 c2 k hne n 0 (Nat.zero_le k) (by omega)
      (fun j _ hj => hlt j hj)
  · intro h j hj
    exact compare_memory_loop_idx buf1 buf2 c1 c2 n 0 h j (Nat.zero_le j) (by omega)
  · intro h
    unfold compare_memory
    rw [compare_memory_loop_no_mismatch buf1 buf2 c1 c2 n 0 (fun j _ hj => h j (by omega))]
  · unfold compare_memory
    rw [compare_memory_loop_no_mismatch buf1 buf1 c1 c2 n 0 (fun _ _ _ => rfl)]
  · intro k hk hne hoth
    exact compare_memory_loop_first buf1 buf2 c1 c2 k hne n 0 (Nat.zero_le k) (by omega)
      (fun j _ hj => hoth j (by omega) (by omega))

/-- Witness for C5: two 4-byte buffers that differ at index 2 only. -/
theorem compare_memory_first_mismatch_witness :
    ([1, 2, 3, 4].length = 4 ∧ [1, 2, 7, 4].length = 4) ∧
    compare_memory [1, 2, 3, 4] [1, 2, 7, 4] 4 0 0 = ⟨2, 3, 7⟩ ∧
    (compare_memory [1, 2, 3, 4] [1, 2, 3, 4] 4 0 0).idx = -1 :=
  ⟨⟨rfl, rfl⟩,
   (compare_memory_first_mismatch [1, 2, 3, 4] [1, 2, 7, 4] 4 0 0 rfl rfl).1 2
      (by decide) (by decide) (by decide),
   (compare_memory_first_mismatch [1, 2, 3, 4] [1, 2, 7, 4] 4 0 0 rfl rfl).2.2.1⟩

/-! ## Fuses: the loop -/

theorem fuses_loop_fatal (act : Nat → Int → List Nat → run_action) (d : fuse_decl_t)
    (rest : List fuse_decl_t) (dl : Int) (o : Nat) (buf : List Nat)
    (h : d.minipro_cmd < o) :
    fuses_loop act (d :: rest) dl o buf
      = ⟨[], [], Outcome.fatal "fuse_decls are not sorted"⟩ := by
  simp [fuses_loop, h]

theorem fuses_loop_boundary (act : Nat → Int → List Nat → run_action) (d : fuse_decl_t)
    (rest : List fuse_decl_t) (dl : Int) (o : Nat) (buf : List Nat)
    (h : ¬ d.minipro_cmd < o) (hb : rest = [] ∨ o < next_cmd rest) :
    fuses_loop act (d :: rest) dl o buf
      = ⟨(act o (to_char (dl + d.length)) buf).ev ::
            (fuses_loop act rest 0 (next_cmd rest)
              (act o (to_char (dl + d.length)) buf).buf).trace,
          (act o (to_char (dl + d.length)) buf).sets ++
            (fuses_loop act rest 0 (next_cmd rest)
              (act o (to_char (dl + d.length)) buf).buf).sets,
          (fuses_loop act rest 0 (next_cmd rest)
              (act o (to_char (dl + d.length)) buf).buf).outcome⟩ := by
  have hc : (rest.isEmpty || decide (next_cmd rest > o)) = true := by
    rcases hb with hb | hb
    · simp [hb]
    · simp [hb]
  simp only [fuses_loop, if_neg h, hc, if_true]

theorem fuses_loop_same (act : Nat → Int → List Nat → run_action) (d : fuse_decl_t)
    (rest : List fuse_decl_t) (dl : Int) (o : Nat) (buf : List Nat)
    (h : ¬ d.minipro_cmd < o) (hne : rest ≠ []) (hb : ¬ o < next_cmd rest) :
    fuses_loop act (d :: rest) dl o buf
      = fuses_loop act rest (to_char (dl + d.length)) o buf := by
  have hc : (rest.isEmpty || decide (next_cmd rest > o)) = false := by
    cases rest with
    | nil => exact absurd rfl hne
    | cons e r => simpa using hb
  simp [fuses_loop, if_neg h, hc]

theorem fuses_loop_outcome (act : Nat → Int → List Nat → run_action) :
    ∀ (l : List fuse_decl_t) (dl : Int) (o : Nat) (buf : List Nat), next_cmd l ≤ o →
      ((fuses_loop act l dl o buf).outcome = Outcome.ok ↔
        (sorted_by_opcode l ∧ ∀ d ∈ l, o ≤ d.minipro_cmd)) ∧
      ((fuses_loop act l dl o buf).outcome = Outcome.ok ∨
        (fuses_loop act l dl o buf).outcome = Outcome.fatal "fuse_decls are not sorted") := by
  intro l
  induction l with
  | nil => intro dl o buf _; simp [fuses_loop, sorted_by_opcode]
  | cons d rest ih =>
    intro dl o buf hent
    have hdo : d.minipro_cmd ≤ o := hent
    by_cases hlt : d.minipro_cmd < o
    · rw [fuses_loop_fatal act d rest dl o buf hlt]
      refine ⟨⟨fun h => by simp at h, fun h => ?_⟩, Or.inr rfl⟩
      have := h.2 d (List.mem_cons_self _ _)
      omega
    · have heq : d.minipro_cmd = o := by omega
      by_cases hb : rest = [] ∨ o < next_cmd rest
      · rw [fuses_loop_boundary act d rest dl o buf hlt hb]
        obtain ⟨ih1, ih2⟩ := ih 0 (next_cmd rest) (act o (to_char (dl + d.length)) buf).buf
          (Nat.le_refl _)
        refine ⟨?_, ih2⟩
        simp only
        rw [ih1]
        unfold sorted_by_opcode
        rw [List.pairwise_cons]
        constructor
        · rintro ⟨hs, hall⟩
          refine ⟨⟨fun x hx => ?_, hs⟩, fun x hx => ?_⟩
          · have := hall x hx
            rcases hb with hb | hb
            · subst hb; simp at hx
            · omega
          · rcases List.mem_cons.1 hx with rfl | hx
            · omega
            · have := hall x hx
              rcases hb with hb | hb
              · subst hb; simp at hx
              · omega
        · rintro ⟨⟨_, hs⟩, _⟩
          refine ⟨hs, fun x hx => ?_⟩
          cases rest with
          | nil => simp at hx
          | cons e r =>
            rcases List.mem_cons.1 hx with rfl | hx
            · exact Nat.le_refl _
            · exact (List.pairwise_cons.1 hs).1 x hx
      · have hne : rest ≠ [] := fun h => hb (Or.inl h)
        have hnb : ¬ o < next_cmd rest := fun h => hb (Or.inr h)
        rw [fuses_loop_same act d rest dl o buf hlt hne hnb]
        obtain ⟨ih1, ih2⟩ := ih (to_char (dl + d.length)) o buf (by omega)
        refine ⟨?_, ih2⟩
        rw [ih1]
        unfold sorted_by_opcode
        rw [List.pairwise_cons]
        constructor
        · rintro ⟨hs, hall⟩
          refine ⟨⟨fun x hx => ?_, hs⟩, fun x hx => ?_⟩
          · have := hall x hx
            omega
          · rcases List.mem_cons.1 hx with rfl | hx
            · omega
            · exact hall x hx
        · rintro ⟨⟨_, hs⟩, hall⟩
          exact ⟨hs, fun x hx => hall x (List.mem_cons_of_mem _ hx)⟩

theorem fuses_loop_ok_iff_sorted (act : Nat → Int → List Nat → run_action)
    (fuses : List fuse_decl_t) (dl : Int) (buf : List Nat) :
    (fuses_loop act fuses dl (next_cmd fuses) buf).outcome = Outcome.ok ↔
      sorted_by_opcode fuses := by
  rw [(fuses_loop_outcome act fuses dl (next_cmd fuses) buf (Nat.le_refl _)).1]
  constructor
  · exact fun h => h.1
  · intro h
    refine ⟨h, fun x hx => ?_⟩
    cases fuses with
    | nil => simp at hx
    | cons e r =>
      rcases List.mem_cons.1 hx with rfl | hx
      · exact Nat.le_refl _
      · exact (List.pairwise_cons.1 h).1 x hx

theorem in_transaction_outcome (r : fuses_run) : (in_transaction r).outcome = r.outcome := by
  unfold in_transaction
  cases h : r.outcome <;> simp

theorem fuses_loop_fatal_iff (act : Nat → Int → List Nat → run_action)
    (fuses : List fuse_decl_t) (dl : Int) (buf : List Nat) :
    (fuses_loop act fuses dl (next_cmd fuses) buf).outcome
        = Outcome.fatal "fuse_decls are not sorted" ↔
      ¬ sorted_by_opcode fuses := by
  rw [← fuses_loop_ok_iff_sorted act fuses dl buf]
  rcases (fuses_loop_outcome act fuses dl (next_cmd fuses) buf (Nat.le_refl _)).2 with h | h
  · simp [h]
  · simp [h]

/-- C9: `read_fuses` and `write_fuses` end in the fatal error
"fuse_decls are not sorted" if and only if the declaration sequence is not
non-decreasing by opcode; otherwise they return. -/
theorem fuses_sortedness_detection_exact (rd : Nat → Int → List Nat → List Nat)
    (cfg : String → Nat) (buf0 : List Nat) (fuses : List fuse_decl_t) :
    ((read_fuses rd buf0 fuses).outcome = Outcome.fatal "fuse_decls are not sorted" ↔
        ¬ sorted_by_opcode fuses) ∧
    ((write_fuses cfg buf0 fuses).outcome = Outcome.fatal "fuse_decls are not sorted" ↔
        ¬ sorted_by_opcode fuses) ∧
    ((read_fuses rd buf0 fuses).outcome = Outcome.ok ↔ sorted_by_opcode fuses) ∧
    ((write_fuses cfg buf0 fuses).outcome = Outcome.ok ↔ sorted_by_opcode fuses) := by
  unfold read_fuses write_fuses
  simp only [in_transaction_outcome]
  exact ⟨fuses_loop_fatal_iff _ fuses 0 buf0, fuses_loop_fatal_iff _ fuses 0 buf0,
    fuses_loop_ok_iff_sorted _ fuses 0 buf0, fuses_loop_ok_iff_sorted _ fuses 0 buf0⟩

/-! ## Fuses: one command per run -/

theorem to_char_of_small (x : Int) (h0 : 0 ≤ x) (h1 : x ≤ 127) : to_char x = x := by
  unfold to_char; omega

theorem next_cmd_cons (e : fuse_decl_t) (l : List fuse_decl_t) :
    next_cmd (e :: l) = e.minipro_cmd := rfl

theorem opcode_runs_cons_head (e : fuse_decl_t) (l : List fuse_decl_t) :
    ∃ run runs, opcode_runs (e :: l) = (e :: run) :: runs := by
  cases h : opcode_runs l with
  | nil => exact ⟨[], [], by simp [opcode_runs, h]⟩
  | cons r rs =>
    cases r with
    | nil => exact ⟨[], [], by simp [opcode_runs, h]⟩
    | cons x r =>
      by_cases hc : e.minipro_cmd = x.minipro_cmd
      · exact ⟨x :: r, rs, by simp [opcode_runs, h, hc]⟩
      · exact ⟨[], (x :: r) :: rs, by simp [opcode_runs, h, hc]⟩

theorem opcode_runs_cons_cons (d e : fuse_decl_t) (l run : List fuse_decl_t)
    (runs : List (List fuse_decl_t)) (h : opcode_runs (e :: l) = (e :: run) :: runs) :
    opcode_runs (d :: e :: l)
      = if d.minipro_cmd = e.minipro_cmd then (d :: e :: run) :: runs
        else [d] :: (e :: run) :: runs := by
  rw [opcode_runs, h]

theorem fuses_loop_commands (act : Nat → Int → List Nat → run_action)
    (ex : Ev → Option (Nat × Int))
    (hact : ∀ o dl buf, ex (act o dl buf).ev = some (o, dl)) :
    ∀ (l : List fuse_decl_t) (d : fuse_decl_t) (dl : Int) (buf : List Nat)
      (run : List fuse_decl_t) (runs : List (List fuse_decl_t)),
      sorted_by_opcode (d :: l) → opcode_runs (d :: l) = run :: runs →
      0 ≤ dl → dl + run_length run ≤ 127 → (∀ r ∈ runs, run_length r ≤ 127) →
      (fuses_loop act (d :: l) dl d.minipro_cmd buf).trace.filterMap ex
          = (d.minipro_cmd, dl + run_length run) ::
              runs.map (fun r => (next_cmd r, (run_length r : Int))) ∧
      (fuses_loop act (d :: l) dl d.minipro_cmd buf).trace.length = runs.length + 1 := by
  intro l
  induction l with
  | nil =>
    intro d dl buf run runs _ hruns h0 h1 _
    have hr : run = [d] ∧ runs = [] := by
      have h1 : opcode_runs [d] = [[d]] := rfl
      rw [h1] at hruns
      injection hruns with ha hb
      exact ⟨ha.symm, hb.symm⟩
    obtain ⟨rfl, rfl⟩ := hr
    rw [fuses_loop_boundary act d [] dl d.minipro_cmd buf (Nat.lt_irrefl _) (Or.inl rfl)]
    have hl : run_length [d] = d.length := by simp [run_length]
    rw [hl] at h1 ⊢
    rw [to_char_of_small _ (by omega) h1]
    simp [fuses_loop, hact]
  | cons e l ih =>
    intro d dl buf run runs hs hruns h0 h1 hrs
    obtain ⟨run', runs', he⟩ := opcode_runs_cons_head e l
    rw [opcode_runs_cons_cons d e l run' runs' he] at hruns
    have hs' : sorted_by_opcode (e :: l) := (List.pairwise_cons.1 hs).2
    have hde : d.minipro_cmd ≤ e.minipro_cmd :=
      (List.pairwise_cons.1 hs).1 e (List.mem_cons_self _ _)
    by_cases hc : d.minipro_cmd = e.minipro_cmd
    · rw [if_pos hc] at hruns
      have hr : run = d :: e :: run' ∧ runs = runs' := by
        injection hruns with ha hb
        exact ⟨ha.symm, hb.symm⟩
      obtain ⟨rfl, rfl⟩ := hr
      have hl : (run_length (d :: e :: run') : Int) = d.length + run_length (e :: run') := by
        simp [run_length]
      rw [hl] at h1 ⊢
      rw [fuses_loop_same act d (e :: l) dl d.minipro_cmd buf (Nat.lt_irrefl _)
        (List.cons_ne_nil _ _) (by rw [next_cmd_cons]; omega)]
      rw [to_char_of_small _ (by omega) (by omega)]
      rw [hc]
      have := ih e (dl + d.length) buf (e :: run') runs hs' he (by omega) (by omega) hrs
      rw [this.1, this.2]
      simp [Int.add_assoc]
    · rw [if_neg hc] at hruns
      have hr : run = [d] ∧ runs = (e :: run') :: runs' := by
        injection hruns with ha hb
        exact ⟨ha.symm, hb.symm⟩
      obtain ⟨rfl, rfl⟩ := hr
      have hl : run_length [d] = d.length := by simp [run_length]
      rw [hl] at h1 ⊢
      rw [fuses_loop_boundary act d (e :: l) dl d.minipro_cmd buf (Nat.lt_irrefl _)
        (Or.inr (by rw [next_cmd_cons]; omega))]
      rw [to_char_of_small _ (by omega) h1]
      have := ih e 0 (act d.minipro_cmd (dl + d.length) buf).buf (e :: run') runs' hs' he
        (Int.le_refl 0)
        (by have := hrs (e :: run') (List.mem_cons_self _ _); omega)
        (fun r hr => hrs r (List.mem_cons_of_mem _ hr))
      simp only [next_cmd_cons, List.filterMap_cons, hact, List.length_cons, List.map_cons]
      rw [this.1, this.2]
      simp

theorem fuses_loop_commands_table (act : Nat → Int → List Nat → run_action)
    (ex : Ev → Option (Nat × Int))
    (hact : ∀ o dl buf, ex (act o dl buf).ev = some (o, dl))
    (fuses : List fuse_decl_t) (buf : List Nat)
    (hs : sorted_by_opcode fuses) (hlen : ∀ r ∈ opcode_runs fuses, run_length r ≤ 127) :
    (fuses_loop act fuses 0 (next_cmd fuses) buf).trace.filterMap ex
        = (opcode_runs fuses).map (fun r => (next_cmd r, (run_length r : Int))) ∧
    (fuses_loop act fuses 0 (next_cmd fuses) buf).trace.length
        = (opcode_runs fuses).length := by
  cases fuses with
  | nil => simp [fuses_loop, opcode_runs]
  | cons d l =>
    obtain ⟨run, runs, he⟩ := opcode_runs_cons_head d l
    rw [he] at hlen
    have h := fuses_loop_commands act ex hact l d 0 buf (d :: run) runs hs he (Int.le_refl 0)
      (by have := hlen (d :: run) (List.mem_cons_self _ _); omega)
      (fun r hr => hlen r (List.mem_cons_of_mem _ hr))
    rw [he, next_cmd_cons, h.1, h.2]
    simp [next_cmd_cons]

theorem in_transaction_trace_ok (r : fuses_run) (h : r.outcome = Outcome.ok) :
    (in_transaction r).trace
      = Ev.minipro_begin_transaction :: (r.trace ++ [Ev.minipro_end_transaction]) := by
  unfold in_transaction; rw [h]

theorem in_transaction_trace_fatal (r : fuses_run) (msg : String)
    (h : r.outcome = Outcome.fatal msg) :
    (in_transaction r).trace = Ev.minipro_begin_transaction :: r.trace := by
  unfold in_transaction; rw [h]

theorem read_fuses_action_call (rd : Nat → Int → List Nat → List Nat)
    (fuses : List fuse_decl_t) (o : Nat) (dl : Int) (buf : List Nat) :
    read_fuses_call (read_fuses_action rd fuses o dl buf).ev = some (o, dl) := rfl

theorem write_fuses_action_call (cfg : String → Nat)
    (fuses : List fuse_decl_t) (o : Nat) (dl : Int) (buf : List Nat) :
    write_fuses_call (write_fuses_action cfg fuses o dl buf).ev = some (o, dl) := rfl

theorem opcode_runs_mem :
    ∀ (l r : List fuse_decl_t), r ∈ opcode_runs l →
      r.Sublist l ∧ ∀ x ∈ r, ∀ y ∈ r, x.minipro_cmd = y.minipro_cmd := by
  intro l
  induction l with
  | nil => intro r hr; simp [opcode_runs] at hr
  | cons d ds ih =>
    intro r hr
    have single : r = [d] →
        r.Sublist (d :: ds) ∧ ∀ x ∈ r, ∀ y ∈ r, x.minipro_cmd = y.minipro_cmd := by
      intro h
      subst h
      refine ⟨by simp, ?_⟩
      intro x hx y hy
      simp only [List.mem_singleton] at hx hy
      rw [hx, hy]
    cases h : opcode_runs ds with
    | nil =>
      simp only [opcode_runs, h, List.mem_singleton] at hr
      exact single hr
    | cons r0 rs =>
      cases r0 with
      | nil =>
        simp only [opcode_runs, h, List.mem_singleton] at hr
        exact single hr
      | cons e run =>
        have ihe := ih (e :: run) (by rw [h]; exact List.mem_cons_self _ _)
        have ihrs : ∀ r' ∈ rs, r'.Sublist (d :: ds) ∧
            ∀ x ∈ r', ∀ y ∈ r', x.minipro_cmd = y.minipro_cmd := by
          intro r' hr'
          have := ih r' (by rw [h]; exact List.mem_cons_of_mem _ hr')
          exact ⟨List.Sublist.cons d this.1, this.2⟩
        by_cases hc : d.minipro_cmd = e.minipro_cmd
        · simp only [opcode_runs, h, hc, if_true, List.mem_cons] at hr
          rcases hr with hr | hr
          · subst hr
            refine ⟨List.Sublist.cons₂ d ihe.1, ?_⟩
            have hall : ∀ x ∈ d :: e :: run, x.minipro_cmd = e.minipro_cmd := by
              intro x hx
              rcases List.mem_cons.1 hx with hx | hx
              · rw [hx]; exact hc
              · exact ihe.2 x hx e (List.mem_cons_self _ _)
            intro x hx y hy
            rw [hall x hx, hall y hy]
          · exact ihrs r hr
        · simp only [opcode_runs, h, hc, if_false, List.mem_cons] at hr
          rcases hr with hr | hr | hr
          · exact single hr
          · subst hr
            exact ⟨List.Sublist.cons d ihe.1, ihe.2⟩
          · exact ihrs r hr

theorem disjoint_cover (r : List fuse_decl_t) (hp : r.Pairwise disjoint_fields) :
    ∃ s : Finset ℕ, s.card = run_length r ∧
      ∀ j, j ∈ s ↔ ∃ d ∈ r, d.offset ≤ j ∧ j < d.offset + d.length := by
  induction r with
  | nil => exact ⟨∅, by simp [run_length], by simp⟩
  | cons d r ih =>
    obtain ⟨hd, hr⟩ := List.pairwise_cons.1 hp
    obtain ⟨s, hc, hs⟩ := ih hr
    refine ⟨Finset.Ico d.offset (d.offset + d.length) ∪ s, ?_, ?_⟩
    · rw [Finset.card_union_of_disjoint, Nat.card_Ico, hc]
      · simp [run_length]
      · rw [Finset.disjoint_left]
        intro j hj hjs
        obtain ⟨e, he, h1, h2⟩ := (hs j).1 hjs
        have := hd e he
        rw [Finset.mem_Ico] at hj
        unfold disjoint_fields at this
        omega
    · intro j
      simp only [Finset.mem_union, Finset.mem_Ico, hs, List.mem_cons]
      constructor
      · rintro (h | ⟨e, he, h⟩)
        · exact ⟨d, Or.inl rfl, h⟩
        · exact ⟨e, Or.inr he, h⟩
      · rintro ⟨e, he | he, h⟩
        · subst he; exact Or.inl h
        · exact Or.inr ⟨e, he, h⟩

theorem disjoint_sum_le (r : List fuse_decl_t) (N : Nat) (hp : r.Pairwise disjoint_fields)
    (hin : ∀ d ∈ r, d.offset + d.length ≤ N) : run_length r ≤ N := by
  obtain ⟨s, hc, hs⟩ := disjoint_cover r hp
  rw [← hc]
  have hsub : s ⊆ Finset.range N := by
    intro j hj
    obtain ⟨d, hd, _, h2⟩ := (hs j).1 hj
    have := hin d hd
    rw [Finset.mem_range]; omega
  simpa using Finset.card_le_card hsub

theorem fields_ok_run_length (fuses : List fuse_decl_t) (hf : fields_ok fuses) :
    ∀ r ∈ opcode_runs fuses, run_length r ≤ 11 := by
  intro r hr
  obtain ⟨hsub, hsame⟩ := opcode_runs_mem fuses r hr
  apply disjoint_sum_le
  · have hpw := hf.2.sublist hsub
    rw [List.pairwise_iff_forall_sublist] at hpw ⊢
    intro a b hab
    have ha : a ∈ r := hab.subset (List.mem_cons_self _ _)
    have hb : b ∈ r := hab.subset (List.mem_cons_of_mem _ (List.mem_cons_self _ _))
    exact hpw hab (hsame a ha b hb)
  · intro d hd
    exact (hf.1 d (hsub.subset hd)).2.2

/-- C7: for a declaration sequence that is non-decreasing by opcode and meets
the invariant of the data model (every field has length 1 to 4 and lies
inside the 11-byte buffer, fields of one opcode do not overlap), `read_fuses`
issues exactly one `minipro_read_fuses` per maximal run of declarations
sharing an opcode, in run order, with the run's opcode and the sum of its
members' lengths, between `minipro_begin_transaction` and
`minipro_end_transaction` and nothing else; `write_fuses` does the same with
`minipro_write_fuses`. -/
theorem fuses_one_command_per_run (rd : Nat → Int → List Nat → List Nat)
    (cfg : String → Nat) (buf0 : List Nat) (fuses : List fuse_decl_t)
    (hs : sorted_by_opcode fuses) (hf : fields_ok fuses) :
    ((read_fuses rd buf0 fuses).trace.filterMap read_fuses_call
        = (opcode_runs fuses).map (fun r => (next_cmd r, (run_length r : Int))) ∧
      (read_fuses rd buf0 fuses).trace.length = (opcode_runs fuses).length + 2) ∧
    ((write_fuses cfg buf0 fuses).trace.filterMap write_fuses_call
        = (opcode_runs fuses).map (fun r => (next_cmd r, (run_length r : Int))) ∧
      (write_fuses cfg buf0 fuses).trace.length = (opcode_runs fuses).length + 2) := by
  have hlen : ∀ r ∈ opcode_runs fuses, run_length r ≤ 127 :=
    fun r hr => Nat.le_trans (fields_ok_run_length fuses hf r hr) (by decide)
  constructor
  · have h := fuses_loop_commands_table (read_fuses_action rd fuses) read_fuses_call
      (read_fuses_action_call rd fuses) fuses buf0 hs hlen
    have hok := (fuses_loop_ok_iff_sorted (read_fuses_action rd fuses) fuses 0 buf0).2 hs
    unfold read_fuses
    rw [in_transaction_trace_ok _ hok]
    simp [h.1, h.2, read_fuses_call]
  · have h := fuses_loop_commands_table (write_fuses_action cfg fuses) write_fuses_call
      (write_fuses_action_call cfg fuses) fuses buf0 hs hlen
    have hok := (fuses_loop_ok_iff_sorted (write_fuses_action cfg fuses) fuses 0 buf0).2 hs
    unfold write_fuses
    rw [in_transaction_trace_ok _ hok]
    simp [h.1, h.2, write_fuses_call]

/-- Witness for C7: the PIC table, two one-byte user ids under opcode 17
followed by a two-byte configuration word under opcode 18. -/
theorem fuses_one_command_per_run_witness :
    (sorted_by_opcode [⟨"user_id0", 17, 1, 0⟩, ⟨"user_id1", 17, 1, 1⟩, ⟨"conf_word", 18, 2, 0⟩] ∧
      fields_ok [⟨"user_id0", 17, 1, 0⟩, ⟨"user_id1", 17, 1, 1⟩, ⟨"conf_word", 18, 2, 0⟩]) ∧
    (read_fuses (fun _ _ b => b) (List.replicate 11 0)
        [⟨"user_id0", 17, 1, 0⟩, ⟨"user_id1", 17, 1, 1⟩, ⟨"conf_word", 18, 2, 0⟩]).trace.filterMap
        read_fuses_call
      = (opcode_runs
          [⟨"user_id0", 17, 1, 0⟩, ⟨"user_id1", 17, 1, 1⟩, ⟨"conf_word", 18, 2, 0⟩]).map
          (fun r => (next_cmd r, (run_length r : Int))) ∧
    (opcode_runs
          [⟨"user_id0", 17, 1, 0⟩, ⟨"user_id1", 17, 1, 1⟩, ⟨"conf_word", 18, 2, 0⟩]).map
          (fun r => (next_cmd r, (run_length r : Int))) = [(17, 2), (18, 2)] :=
  ⟨⟨by decide, by decide⟩,
   (fuses_one_command_per_run (fun _ _ b => b) (fun _ => 0) (List.replicate 11 0)
      [⟨"user_id0", 17, 1, 0⟩, ⟨"user_id1", 17, 1, 1⟩, ⟨"conf_word", 18, 2, 0⟩]
      (by decide) (by decide)).1.1,
   by decide⟩

/-! ## Fuses: unsorted tables -/

theorem sorted_init_cons_head (e : fuse_decl_t) (l : List fuse_decl_t) :
    ∃ t, sorted_init (e :: l) = e :: t := by
  cases l with
  | nil => exact ⟨[], rfl⟩
  | cons x l =>
    by_cases h : e.minipro_cmd ≤ x.minipro_cmd
    · exact ⟨sorted_init (x :: l), by simp [sorted_init, h]⟩
    · exact ⟨[], by simp [sorted_init, h]⟩

theorem fuses_loop_unsorted (act : Nat → Int → List Nat → run_action)
    (ex : Ev → Option (Nat × Int))
    (hact : ∀ o dl buf, ex (act o dl buf).ev = some (o, dl)) :
    ∀ (l : List fuse_decl_t) (d : fuse_decl_t) (dl : Int) (buf : List Nat),
      ¬ sorted_by_opcode (d :: l) →
      ((fuses_loop act (d :: l) dl d.minipro_cmd buf).trace.filterMap ex).map Prod.fst
          = ((opcode_runs (sorted_init (d :: l))).map next_cmd).dropLast ∧
      (fuses_loop act (d :: l) dl d.minipro_cmd buf).trace.length
          = (opcode_runs (sorted_init (d :: l))).length - 1 := by
  intro l
  induction l with
  | nil =>
    intro d dl buf hns
    exact absurd (by simp [sorted_by_opcode]) hns
  | cons e l ih =>
    intro d dl buf hns
    by_cases hde : d.minipro_cmd ≤ e.minipro_cmd
    · have hns' : ¬ sorted_by_opcode (e :: l) := by
        intro hs
        apply hns
        unfold sorted_by_opcode at hs ⊢
        refine List.pairwise_cons.2 ⟨fun x hx => ?_, hs⟩
        rcases List.mem_cons.1 hx with rfl | hx
        · exact hde
        · exact Nat.le_trans hde ((List.pairwise_cons.1 hs).1 x hx)
      have hsp : sorted_init (d :: e :: l) = d :: sorted_init (e :: l) := by
        simp [sorted_init, hde]
      obtain ⟨t, ht⟩ := sorted_init_cons_head e l
      obtain ⟨run', runs', he⟩ := opcode_runs_cons_head e t
      rw [hsp, ht, opcode_runs_cons_cons d e t run' runs' he]
      by_cases hc : d.minipro_cmd = e.minipro_cmd
      · rw [if_pos hc]
        rw [fuses_loop_same act d (e :: l) dl d.minipro_cmd buf (Nat.lt_irrefl _)
          (List.cons_ne_nil _ _) (by rw [next_cmd_cons]; omega)]
        have := ih e (to_char (dl + d.length)) buf hns'
        rw [ht, he] at this
        rw [hc, this.1, this.2]
        simp [next_cmd_cons, hc]
      · rw [if_neg hc]
        rw [fuses_loop_boundary act d (e :: l) dl d.minipro_cmd buf (Nat.lt_irrefl _)
          (Or.inr (by rw [next_cmd_cons]; omega))]
        have := ih e 0 (act d.minipro_cmd (to_char (dl + d.length)) buf).buf hns'
        rw [ht, he] at this
        simp only [next_cmd_cons, List.filterMap_cons, hact, List.length_cons, List.map_cons]
        rw [this.1, this.2]
        simp [next_cmd_cons, List.dropLast]
    · have hsp : sorted_init (d :: e :: l) = [d] := by
        simp [sorted_init, hde]
      rw [hsp]
      rw [fuses_loop_same act d (e :: l) dl d.minipro_cmd buf (Nat.lt_irrefl _)
        (List.cons_ne_nil _ _) (by rw [next_cmd_cons]; omega)]
      rw [fuses_loop_fatal act e l _ d.minipro_cmd buf (by omega)]
      simp [opcode_runs]

theorem fuses_loop_unsorted_table (act : Nat → Int → List Nat → run_action)
    (ex : Ev → Option (Nat × Int))
    (hact : ∀ o dl buf, ex (act o dl buf).ev = some (o, dl))
    (fuses : List fuse_decl_t) (buf : List Nat) (hns : ¬ sorted_by_opcode fuses) :
    ((fuses_loop act fuses 0 (next_cmd fuses) buf).trace.filterMap ex).map Prod.fst
        = ((opcode_runs (sorted_init fuses)).map next_cmd).dropLast ∧
    (fuses_loop act fuses 0 (next_cmd fuses) buf).trace.length
        = (opcode_runs (sorted_init fuses)).length - 1 := by
  cases fuses with
  | nil => exact absurd (by simp [sorted_by_opcode]) hns
  | cons d l => exact fuses_loop_unsorted act ex hact l d 0 buf hns

/-- C8 fails on the code as stated: for the opcodes 1, 2, 1 the fatal error is
raised after `minipro_begin_transaction` and after the command of the first
run has been issued, by `read_fuses` and by `write_fuses`. -/
theorem fuses_unsorted_commands_before_error :
    ¬ sorted_by_opcode [⟨"a", 1, 1, 0⟩, ⟨"b", 2, 1, 0⟩, ⟨"c", 1, 1, 1⟩] ∧
    read_fuses (fun _ _ b => b) (List.replicate 11 0)
        [⟨"a", 1, 1, 0⟩, ⟨"b", 2, 1, 0⟩, ⟨"c", 1, 1, 1⟩]
      = ⟨[Ev.minipro_begin_transaction, Ev.minipro_read_fuses 1 1], [("a", 0), ("c", 0)],
          Outcome.fatal "fuse_decls are not sorted"⟩ ∧
    write_fuses (fun _ => 7) (List.replicate 11 0)
        [⟨"a", 1, 1, 0⟩, ⟨"b", 2, 1, 0⟩, ⟨"c", 1, 1, 1⟩]
      = ⟨[Ev.minipro_begin_transaction,
            Ev.minipro_write_fuses 1 1 [7, 7, 0, 0, 0, 0, 0, 0, 0, 0, 0]], [],
          Outcome.fatal "fuse_decls are not sorted"⟩ := by
  decide

/-- C8, amended: for a declaration sequence that is not non-decreasing by
opcode, `read_fuses` and `write_fuses` end in the fatal error
"fuse_decls are not sorted"; before it `minipro_begin_transaction` has been
issued, followed by one `minipro_read_fuses` (resp. `minipro_write_fuses`)
for each opcode run of the longest sorted prefix of the sequence except the
last such run, in run order, and by nothing else. -/
theorem fuses_unsorted_error_after_begin (rd : Nat → Int → List Nat → List Nat)
    (cfg : String → Nat) (buf0 : List Nat) (fuses : List fuse_decl_t)
    (hns : ¬ sorted_by_opcode fuses) :
    ((read_fuses rd buf0 fuses).outcome = Outcome.fatal "fuse_decls are not sorted" ∧
      ∃ issued, (read_fuses rd buf0 fuses).trace = Ev.minipro_begin_transaction :: issued ∧
        (issued.filterMap read_fuses_call).map Prod.fst
          = ((opcode_runs (sorted_init fuses)).map next_cmd).dropLast ∧
        issued.length = (opcode_runs (sorted_init fuses)).length - 1) ∧
    ((write_fuses cfg buf0 fuses).outcome = Outcome.fatal "fuse_decls are not sorted" ∧
      ∃ issued, (write_fuses cfg buf0 fuses).trace = Ev.minipro_begin_transaction :: issued ∧
        (issued.filterMap write_fuses_call).map Prod.fst
          = ((opcode_runs (sorted_init fuses)).map next_cmd).dropLast ∧
        issued.length = (opcode_runs (sorted_init fuses)).length - 1) := by
  constructor
  · have hf := (fuses_loop_fatal_iff (read_fuses_action rd fuses) fuses 0 buf0).2 hns
    have h := fuses_loop_unsorted_table (read_fuses_action rd fuses) read_fuses_call
      (read_fuses_action_call rd fuses) fuses buf0 hns
    unfold read_fuses
    rw [in_transaction_outcome, in_transaction_trace_fatal _ _ hf]
    exact ⟨hf, _, rfl, h.1, h.2⟩
  · have hf := (fuses_loop_fatal_iff (write_fuses_action cfg fuses) fuses 0 buf0).2 hns
    have h := fuses_loop_unsorted_table (write_fuses_action cfg fuses) write_fuses_call
      (write_fuses_action_call cfg fuses) fuses buf0 hns
    unfold write_fuses
    rw [in_transaction_outcome, in_transaction_trace_fatal _ _ hf]
    exact ⟨hf, _, rfl, h.1, h.2⟩

/-- Witness for C8: the opcodes 2, 1. -/
theorem fuses_unsorted_error_after_begin_witness :
    ¬ sorted_by_opcode [⟨"a", 2, 1, 0⟩, ⟨"b", 1, 1, 0⟩] ∧
    (read_fuses (fun _ _ b => b) (List.replicate 11 0)
        [⟨"a", 2, 1, 0⟩, ⟨"b", 1, 1, 0⟩]).outcome
      = Outcome.fatal "fuse_decls are not sorted" ∧
    (write_fuses (fun _ => 0) (List.replicate 11 0)
        [⟨"a", 2, 1, 0⟩, ⟨"b", 1, 1, 0⟩]).outcome
      = Outcome.fatal "fuse_decls are not sorted" :=
  ⟨by decide,
   (fuses_unsorted_error_after_begin (fun _ _ b => b) (fun _ => 0) (List.replicate 11 0)
      [⟨"a", 2, 1, 0⟩, ⟨"b", 1, 1, 0⟩] (by decide)).1.1,
   (fuses_unsorted_error_after_begin (fun _ _ b => b) (fun _ => 0) (List.replicate 11 0)
      [⟨"a", 2, 1, 0⟩, ⟨"b", 1, 1, 0⟩] (by decide)).2.1⟩

/-! ## The read action -/

/-- C10: with the page unspecified, `action_read` reads Code into the given
path, then Data into "eeprom.bin" iff `data_memory_size` is not zero, then
the fuses into "fuses.conf" iff the device declares fuses; with page Code,
Data or Config it processes that region only (Data and Config are skipped
when the device lacks them) and writes to the given path only.  With the
page unspecified, `data_memory_size = 256` and no fuses, the files written
are the given path and "eeprom.bin". -/
theorem action_read_cascade (filename : String) (device : device_t) :
    action_read page_t.UNSPECIFIED filename device
      = [read_call.minipro_begin_transaction,
          read_call.read_page_file filename mp_type.MP_READ_CODE "Code"
            device.code_memory_size] ++
        (if device.data_memory_size ≠ 0 then
          [read_call.read_page_file "eeprom.bin" mp_type.MP_READ_DATA "Data"
            device.data_memory_size] else []) ++
        (match device.fuses with
          | some fuses => [read_call.read_fuses "fuses.conf" fuses]
          | none => []) ++
        [read_call.minipro_end_transaction] ∧
    action_read page_t.CODE filename device
      = [read_call.minipro_begin_transaction,
          read_call.read_page_file filename mp_type.MP_READ_CODE "Code"
            device.code_memory_size,
          read_call.minipro_end_transaction] ∧
    action_read page_t.DATA filename device
      = [read_call.minipro_begin_transaction] ++
        (if device.data_memory_size ≠ 0 then
          [read_call.read_page_file filename mp_type.MP_READ_DATA "Data"
            device.data_memory_size] else []) ++
        [read_call.minipro_end_transaction] ∧
    action_read page_t.CONFIG filename device
      = [read_call.minipro_begin_transaction] ++
        (match device.fuses with
          | some fuses => [read_call.read_fuses filename fuses]
          | none => []) ++
        [read_call.minipro_end_transaction] ∧
    (∀ page, page ≠ page_t.UNSPECIFIED →
      ∀ f ∈ output_files (action_read page filename device), f = filename) ∧
    (device.data_memory_size = 256 → device.fuses = none →
      output_files (action_read page_t.UNSPECIFIED filename device)
        = [filename, "eeprom.bin"]) := by
  have hU : action_read page_t.UNSPECIFIED filename device
      = [read_call.minipro_begin_transaction,
          read_call.read_page_file filename mp_type.MP_READ_CODE "Code"
            device.code_memory_size] ++
        (if device.data_memory_size ≠ 0 then
          [read_call.read_page_file "eeprom.bin" mp_type.MP_READ_DATA "Data"
            device.data_memory_size] else []) ++
        (match device.fuses with
          | some fuses => [read_call.read_fuses "fuses.conf" fuses]
          | none => []) ++
        [read_call.minipro_end_transaction] := by
    cases hf : device.fuses <;> by_cases hd : device.data_memory_size = 0 <;>
      simp [action_read, fall_through, action_read_case, switch_labels, hf, hd]
  have hC : action_read page_t.CODE filename device
      = [read_call.minipro_begin_transaction,
          read_call.read_page_file filename mp_type.MP_READ_CODE "Code"
            device.code_memory_size,
          read_call.minipro_end_transaction] := by
    simp [action_read, fall_through, action_read_case, switch_labels]
  have hD : action_read page_t.DATA filename device
      = [read_call.minipro_begin_transaction] ++
        (if device.data_memory_size ≠ 0 then
          [read_call.read_page_file filename mp_type.MP_READ_DATA "Data"
            device.data_memory_size] else []) ++
        [read_call.minipro_end_transaction] := by
    by_cases hd : device.data_memory_size = 0 <;>
      simp [action_read, fall_through, action_read_case, switch_labels, hd]
  have hG : action_read page_t.CONFIG filename device
      = [read_call.minipro_begin_transaction] ++
        (match device.fuses with
          | some fuses => [read_call.read_fuses filename fuses]
          | none => []) ++
        [read_call.minipro_end_transaction] := by
    cases hf : device.fuses <;>
      simp [action_read, fall_through, action_read_case, switch_labels, hf]
  refine ⟨hU, hC, hD, hG, ?_, ?_⟩
  · intro page hp f hf
    cases page with
    | UNSPECIFIED => exact absurd rfl hp
    | CODE =>
      rw [hC] at hf
      simpa [output_files] using hf
    | DATA =>
      rw [hD] at hf
      by_cases hd : device.data_memory_size = 0
      · simp [hd, output_files] at hf
      · simpa [hd, output_files] using hf
    | CONFIG =>
      rw [hG] at hf
      cases hfu : device.fuses with
      | none => simp [hfu, output_files] at hf
      | some fuses => simpa [hfu, output_files] using hf
  · intro hd hf
    rw [hU, hd, hf]
    simp [output_files]

/-! ## Fuses: the little-endian codec -/

theorem getD_set_ne (l : List Nat) (i j a : Nat) (h : i ≠ j) :
    (l.set i a).getD j 0 = l.getD j 0 := by
  rw [List.getD_eq_getElem?_getD, List.getD_eq_getElem?_getD, List.getElem?_set, if_neg h]

theorem getD_set_eq (l : List Nat) (i a : Nat) (h : i < l.length) :
    (l.set i a).getD i 0 = a := by
  rw [List.getD_eq_getElem?_getD, List.getElem?_set, if_pos rfl, if_pos h]
  rfl

theorem format_int_length : ∀ (n : Nat) (buf : List Nat) (off v : Nat),
    (format_int buf off v n).length = buf.length := by
  intro n
  induction n with
  | zero => intro buf off v; rfl
  | succ n ih => intro buf off v; rw [format_int, ih, List.length_set]

theorem format_int_outside : ∀ (n : Nat) (buf : List Nat) (off v j : Nat),
    (j < off ∨ off + n ≤ j) → (format_int buf off v n).getD j 0 = buf.getD j 0 := by
  intro n
  induction n with
  | zero => intro buf off v j _; rfl
  | succ n ih =>
    intro buf off v j h
    rw [format_int, ih _ _ _ j (by omega), getD_set_ne _ _ _ _ (by omega)]

theorem load_int_format_int : ∀ (n : Nat) (buf : List Nat) (off v : Nat),
    off + n ≤ buf.length → v < 256 ^ n → load_int (format_int buf off v n) off n = v := by
  intro n
  induction n with
  | zero =>
    intro buf off v _ hv
    simp at hv
    simp [load_int, hv]
  | succ n ih =>
    intro buf off v hb hv
    rw [load_int, format_int]
    rw [format_int_outside n _ (off + 1) _ off (Or.inl (Nat.lt_succ_self off))]
    rw [getD_set_eq _ _ _ (by omega)]
    rw [ih _ (off + 1) (v / 256) (by rw [List.length_set]; omega)
      (by rw [Nat.div_lt_iff_lt_mul (by decide)]; rw [Nat.pow_succ] at hv; exact hv)]
    omega

theorem load_int_congr : ∀ (n off : Nat) (b1 b2 : List Nat),
    (∀ j, off ≤ j → j < off + n → b1.getD j 0 = b2.getD j 0) →
      load_int b1 off n = load_int b2 off n := by
  intro n
  induction n with
  | zero => intro off b1 b2 _; rfl
  | succ n ih =>
    intro off b1 b2 h
    rw [load_int, load_int, h off (Nat.le_refl _) (by omega),
      ih (off + 1) b1 b2 (fun j h1 h2 => h j (by omega) (by omega))]

theorem write_fuses_pack_length (cfg : String → Nat) (o : Nat) :
    ∀ (ds : List fuse_decl_t) (buf : List Nat),
      (write_fuses_pack cfg o ds buf).length = buf.length := by
  intro ds
  induction ds with
  | nil => intro buf; rfl
  | cons d ds ih =>
    intro buf
    by_cases h : d.minipro_cmd = o
    · simp [write_fuses_pack, h, ih, format_int_length]
    · simp [write_fuses_pack, h, ih]

theorem write_fuses_pack_outside (cfg : String → Nat) (o j : Nat) :
    ∀ (ds : List fuse_decl_t) (buf : List Nat),
      (∀ d ∈ ds, d.minipro_cmd = o → (j < d.offset ∨ d.offset + d.length ≤ j)) →
      (write_fuses_pack cfg o ds buf).getD j 0 = buf.getD j 0 := by
  intro ds
  induction ds with
  | nil => intro buf _; rfl
  | cons d ds ih =>
    intro buf h
    have hds := fun x hx => h x (List.mem_cons_of_mem _ hx)
    by_cases hc : d.minipro_cmd = o
    · simp only [write_fuses_pack, hc, ne_eq, not_true_eq_false, if_false]
      rw [ih _ hds, format_int_outside _ _ _ _ j (h d (List.mem_cons_self _ _) hc)]
    · simp only [write_fuses_pack, hc, ne_eq, not_false_eq_true, if_true]
      exact ih _ hds

theorem write_fuses_pack_load (cfg : String → Nat) (o : Nat) :
    ∀ (ds : List fuse_decl_t) (buf : List Nat),
      (∀ d ∈ ds, d.offset + d.length ≤ buf.length) →
      ds.Pairwise (fun d e => d.minipro_cmd = e.minipro_cmd → disjoint_fields d e) →
      (∀ d ∈ ds, cfg d.name < 256 ^ d.length) →
      ∀ d ∈ ds, d.minipro_cmd = o →
        load_int (write_fuses_pack cfg o ds buf) d.offset d.length = cfg d.name := by
  intro ds
  induction ds with
  | nil => intro buf _ _ _ d hd; simp at hd
  | cons x xs ih =>
    intro buf hin hpw hrep d hd hdo
    have hin' := fun y hy => hin y (List.mem_cons_of_mem _ hy)
    have hrep' := fun y hy => hrep y (List.mem_cons_of_mem _ hy)
    obtain ⟨hx, hpw'⟩ := List.pairwise_cons.1 hpw
    by_cases hc : x.minipro_cmd = o
    · simp only [write_fuses_pack, hc, ne_eq, not_true_eq_false, if_false]
      by_cases hmem : d ∈ xs
      · exact ih _ (fun y hy => by rw [format_int_length]; exact hin' y hy) hpw' hrep' d hmem hdo
      · have hdx : d = x := by
          rcases List.mem_cons.1 hd with h | h
          · exact h
          · exact absurd h hmem
        subst hdx
        rw [load_int_congr d.length d.offset _ (format_int buf d.offset (cfg d.name) d.length)]
        · exact load_int_format_int _ _ _ _ (hin d (List.mem_cons_self _ _))
            (hrep d (List.mem_cons_self _ _))
        · intro j h1 h2
          apply write_fuses_pack_outside
          intro e he heo
          have hdis := hx e he (by rw [hc, heo])
          unfold disjoint_fields at hdis
          omega
    · simp only [write_fuses_pack, hc, ne_eq, not_false_eq_true, if_true]
      have hmem : d ∈ xs := by
        rcases List.mem_cons.1 hd with h | h
        · subst h; exact absurd hdo hc
        · exact h
      exact ih _ hin' hpw' hrep' d hmem hdo

theorem read_fuses_unpack_eq (buf : List Nat) (o : Nat) (g : fuse_decl_t → String × Nat) :
    ∀ (ds : List fuse_decl_t),
      (∀ d ∈ ds, d.minipro_cmd = o → (d.name, load_int buf d.offset d.length) = g d) →
      read_fuses_unpack buf o ds = (ds.filter (fun d => decide (d.minipro_cmd = o))).map g := by
  intro ds
  induction ds with
  | nil => intro _; rfl
  | cons d ds ih =>
    intro h
    have hds := fun x hx => h x (List.mem_cons_of_mem _ hx)
    by_cases hc : d.minipro_cmd = o
    · simp [read_fuses_unpack, hc, ih hds, List.filter_cons, h d (List.mem_cons_self _ _) hc]
    · simp [read_fuses_unpack, hc, ih hds, List.filter_cons]

/-! ## Fuses: round trip -/

theorem fuses_loop_sets (act : Nat → Int → List Nat → run_action)
    (all : List fuse_decl_t) (g : fuse_decl_t → String × Nat)
    (hsets : ∀ o dl buf, (∃ x ∈ all, x.minipro_cmd = o) →
      (act o dl buf).sets = (all.filter (fun x => decide (x.minipro_cmd = o))).map g)
    (hs : sorted_by_opcode all) :
    ∀ (l pre : List fuse_decl_t) (d : fuse_decl_t) (dl : Int) (buf : List Nat),
      all = pre ++ d :: l →
      (fuses_loop act (d :: l) dl d.minipro_cmd buf).sets
        = (pre.filter (fun x => decide (x.minipro_cmd = d.minipro_cmd)) ++ d :: l).map g := by
  intro l
  induction l with
  | nil =>
    intro pre d dl buf hall
    rw [fuses_loop_boundary act d [] dl d.minipro_cmd buf (Nat.lt_irrefl _) (Or.inl rfl)]
    simp only [fuses_loop, List.append_nil]
    rw [hsets _ _ _ ⟨d, by rw [hall]; simp, rfl⟩, hall]
    simp [List.filter_append, List.filter_cons]
  | cons e l ih =>
    intro pre d dl buf hall
    have hall' : all = (pre ++ [d]) ++ e :: l := by rw [hall]; simp
    have hsplit := hs
    unfold sorted_by_opcode at hsplit
    rw [hall', List.pairwise_append] at hsplit
    obtain ⟨_, htail, hcross⟩ := hsplit
    have hde : d.minipro_cmd ≤ e.minipro_cmd :=
      hcross d (by simp) e (List.mem_cons_self _ _)
    by_cases hc : d.minipro_cmd = e.minipro_cmd
    · rw [fuses_loop_same act d (e :: l) dl d.minipro_cmd buf (Nat.lt_irrefl _)
        (List.cons_ne_nil _ _) (by rw [next_cmd_cons]; omega)]
      rw [hc, ih (pre ++ [d]) e _ buf hall']
      simp [List.filter_append, List.filter_cons, hc]
    · rw [fuses_loop_boundary act d (e :: l) dl d.minipro_cmd buf (Nat.lt_irrefl _)
        (Or.inr (by rw [next_cmd_cons]; omega))]
      simp only [next_cmd_cons]
      rw [ih (pre ++ [d]) e _ _ hall', hsets _ _ _ ⟨d, by rw [hall]; simp, rfl⟩]
      have h1 : (e :: l).filter (fun x => decide (x.minipro_cmd = d.minipro_cmd)) = [] := by
        rw [List.filter_eq_nil_iff]
        intro x hx
        have hex : e.minipro_cmd ≤ x.minipro_cmd := by
          rcases List.mem_cons.1 hx with rfl | hx
          · exact Nat.le_refl _
          · exact (List.pairwise_cons.1 htail).1 x hx
        simp only [decide_eq_true_eq]
        omega
      have h2 : (pre ++ [d]).filter (fun x => decide (x.minipro_cmd = e.minipro_cmd)) = [] := by
        rw [List.filter_eq_nil_iff]
        intro x hx
        have := hcross x hx e (List.mem_cons_self _ _)
        have hxd : x.minipro_cmd ≤ d.minipro_cmd := by
          rcases List.mem_append.1 hx with hx | hx
          · have hsd := hs
            unfold sorted_by_opcode at hsd
            rw [hall, List.pairwise_append] at hsd
            exact hsd.2.2 x hx d (List.mem_cons_self _ _)
          · simp at hx; rw [hx]
        simp only [decide_eq_true_eq]
        omega
      rw [h2, hall, List.filter_append, List.filter_cons, h1]
      simp

theorem fuses_loop_sets_table (act : Nat → Int → List Nat → run_action)
    (fuses : List fuse_decl_t) (g : fuse_decl_t → String × Nat)
    (hsets : ∀ o dl buf, (∃ x ∈ fuses, x.minipro_cmd = o) →
      (act o dl buf).sets = (fuses.filter (fun x => decide (x.minipro_cmd = o))).map g)
    (hs : sorted_by_opcode fuses) (dl : Int) (buf : List Nat) :
    (fuses_loop act fuses dl (next_cmd fuses) buf).sets = fuses.map g := by
  cases fuses with
  | nil => rfl
  | cons d l =>
    rw [next_cmd_cons, fuses_loop_sets act (d :: l) g hsets hs l [] d dl buf rfl]
    simp

theorem write_fuses_trace_buffers (cfg : String → Nat) (all : List fuse_decl_t) :
    ∀ (l : List fuse_decl_t) (dl : Int) (o : Nat) (buf : List Nat), buf.length = 11 →
      ∀ ev ∈ (fuses_loop (write_fuses_action cfg all) l dl o buf).trace,
        ∃ o' dl' b, b.length = 11 ∧
          ev = Ev.minipro_write_fuses o' dl' (write_fuses_pack cfg o' all b) := by
  intro l
  induction l with
  | nil => intro dl o buf _ ev hev; simp [fuses_loop] at hev
  | cons d l ih =>
    intro dl o buf hb ev hev
    by_cases hlt : d.minipro_cmd < o
    · rw [fuses_loop_fatal _ d l dl o buf hlt] at hev
      simp at hev
    · by_cases hbd : l = [] ∨ o < next_cmd l
      · rw [fuses_loop_boundary _ d l dl o buf hlt hbd] at hev
        rcases List.mem_cons.1 hev with h | h
        · exact ⟨o, _, buf, hb, h⟩
        · exact ih _ _ _ (by simp [write_fuses_action, write_fuses_pack_length, hb]) ev h
      · rw [fuses_loop_same _ d l dl o buf hlt (fun h => hbd (Or.inl h))
          (fun h => hbd (Or.inr h))] at hev
        exact ih _ _ _ hb ev hev

theorem write_fuses_trace_covers (cfg : String → Nat) (all : List fuse_decl_t) :
    ∀ (l : List fuse_decl_t) (d : fuse_decl_t) (dl : Int) (buf : List Nat),
      sorted_by_opcode (d :: l) →
      ∀ x ∈ d :: l, ∃ dl' b, Ev.minipro_write_fuses x.minipro_cmd dl' b
        ∈ (fuses_loop (write_fuses_action cfg all) (d :: l) dl d.minipro_cmd buf).trace := by
  intro l
  induction l with
  | nil =>
    intro d dl buf _ x hx
    simp at hx
    subst hx
    rw [fuses_loop_boundary _ x [] dl x.minipro_cmd buf (Nat.lt_irrefl _) (Or.inl rfl)]
    exact ⟨_, _, List.mem_cons_self _ _⟩
  | cons e l ih =>
    intro d dl buf hs x hx
    have hs' : sorted_by_opcode (e :: l) := (List.pairwise_cons.1 hs).2
    have hde : d.minipro_cmd ≤ e.minipro_cmd :=
      (List.pairwise_cons.1 hs).1 e (List.mem_cons_self _ _)
    by_cases hc : d.minipro_cmd = e.minipro_cmd
    · rw [fuses_loop_same _ d (e :: l) dl d.minipro_cmd buf (Nat.lt_irrefl _)
        (List.cons_ne_nil _ _) (by rw [next_cmd_cons]; omega)]
      rw [hc]
      rcases List.mem_cons.1 hx with rfl | hx
      · rw [hc]
        exact ih e _ buf hs' e (List.mem_cons_self _ _)
      · exact ih e _ buf hs' x hx
    · rw [fuses_loop_boundary _ d (e :: l) dl d.minipro_cmd buf (Nat.lt_irrefl _)
        (Or.inr (by rw [next_cmd_cons]; omega))]
      rcases List.mem_cons.1 hx with rfl | hx
      · exact ⟨_, _, List.mem_cons_self _ _⟩
      · obtain ⟨dl', b, hmem⟩ := ih e 0 _ hs' x hx
        exact ⟨dl', b, List.mem_cons_of_mem _ hmem⟩

theorem stored_buffer_spec (P : List Nat → Prop) (o : Nat) :
    ∀ (tr : List Ev), (∀ dl b, Ev.minipro_write_fuses o dl b ∈ tr → P b) →
      (∃ dl b, Ev.minipro_write_fuses o dl b ∈ tr) →
      ∃ b, stored_buffer tr o = some b ∧ P b := by
  intro tr
  induction tr with
  | nil => intro _ h; obtain ⟨_, _, h⟩ := h; simp at h
  | cons e es ih =>
    intro hP hex
    have hP' : ∀ dl b, Ev.minipro_write_fuses o dl b ∈ es → P b :=
      fun dl b h => hP dl b (List.mem_cons_of_mem _ h)
    cases hsb : stored_buffer es o with
    | some b =>
      have hb : P b := by
        by_cases hes : ∃ dl b, Ev.minipro_write_fuses o dl b ∈ es
        · obtain ⟨b', h1, h2⟩ := ih hP' hes
          rw [hsb] at h1
          injection h1 with h1
          rw [h1]; exact h2
        · exfalso
          have hnone : ∀ (t : List Ev), (¬ ∃ dl b, Ev.minipro_write_fuses o dl b ∈ t) →
              stored_buffer t o = none := by
            intro t
            induction t with
            | nil => intro _; rfl
            | cons e' t iht =>
              intro hno
              have h1 := iht (fun ⟨dl, b, h⟩ => hno ⟨dl, b, List.mem_cons_of_mem _ h⟩)
              cases e' with
              | minipro_write_fuses ty dl b =>
                have hty : ty ≠ o := by
                  intro h; subst h
                  exact hno ⟨dl, b, List.mem_cons_self _ _⟩
                simp [stored_buffer, h1, hty]
              | _ => simp [stored_buffer, h1]
          rw [hnone es hes] at hsb
          simp at hsb
      exact ⟨b, by simp [stored_buffer, hsb], hb⟩
    | none =>
      obtain ⟨dl, b, hmem⟩ := hex
      rcases List.mem_cons.1 hmem with h | h
      · subst h
        exact ⟨b, by simp [stored_buffer, hsb], hP dl b (List.mem_cons_self _ _)⟩
      · obtain ⟨b', h1, _⟩ := ih hP' ⟨dl, b, h⟩
        rw [hsb] at h1
        simp at h1

theorem config_value_map (c : String → Nat) :
    ∀ (sets : List (String × Nat)), (∀ q ∈ sets, q.2 = c q.1) → ∀ name,
      config_value sets name
        = if name ∈ sets.map Prod.fst then some (c name) else none := by
  intro sets
  induction sets with
  | nil => intro _ name; simp [config_value]
  | cons q qs ih =>
    intro h name
    obtain ⟨n, v⟩ := q
    have hv : v = c n := h (n, v) (List.mem_cons_self _ _)
    have ih' := ih (fun q hq => h q (List.mem_cons_of_mem _ hq)) name
    by_cases hmem : name ∈ qs.map Prod.fst
    · rw [if_pos hmem] at ih'
      simp only [config_value, ih', List.map_cons, List.mem_cons]
      rw [if_pos (Or.inr hmem)]
    · rw [if_neg hmem] at ih'
      simp only [config_value, ih', List.map_cons, List.mem_cons]
      by_cases hn : n = name
      · subst hn
        simp [hv]
      · have hn' : ¬ name = n := fun h => hn h.symm
        simp [hn, hn', hmem]

theorem stored_buffer_write_fuses (cfg : String → Nat) (buf0 : List Nat)
    (fuses : List fuse_decl_t) (hb0 : buf0.length = 11) (hs : sorted_by_opcode fuses)
    (hf : fields_ok fuses) (hrep : ∀ d ∈ fuses, cfg d.name < 256 ^ d.length)
    (o : Nat) (ho : ∃ x ∈ fuses, x.minipro_cmd = o) :
    ∃ b, stored_buffer (write_fuses cfg buf0 fuses).trace o = some b ∧
      ∀ d ∈ fuses, d.minipro_cmd = o → load_int b d.offset d.length = cfg d.name := by
  have hok := (fuses_loop_ok_iff_sorted (write_fuses_action cfg fuses) fuses 0 buf0).2 hs
  apply stored_buffer_spec
  · intro dl b hmem
    unfold write_fuses at hmem
    rw [in_transaction_trace_ok _ hok] at hmem
    have hmem' : Ev.minipro_write_fuses o dl b
        ∈ (fuses_loop (write_fuses_action cfg fuses) fuses 0 (next_cmd fuses) buf0).trace := by
      simpa using hmem
    obtain ⟨o', dl', b', hb', heq⟩ :=
      write_fuses_trace_buffers cfg fuses fuses 0 (next_cmd fuses) buf0 hb0 _ hmem'
    injection heq with h1 h2 h3
    subst h1
    rw [h3]
    intro d hd hdo
    exact write_fuses_pack_load cfg o fuses b'
      (fun y hy => by rw [hb']; exact (hf.1 y hy).2.2) hf.2 hrep d hd hdo
  · obtain ⟨x, hx, hxo⟩ := ho
    cases fuses with
    | nil => simp at hx
    | cons d l =>
      obtain ⟨dl', b, hmem⟩ := write_fuses_trace_covers cfg (d :: l) l d 0 buf0 hs x hx
      refine ⟨dl', b, ?_⟩
      unfold write_fuses
      rw [in_transaction_trace_ok _ hok, next_cmd_cons, ← hxo]
      simp [hmem]

/-- C6: for a declaration sequence sorted by opcode whose fields have lengths
1 to 4, lie inside the 11-byte buffer and do not overlap within an opcode
group, and for values that fit the declared widths, `write_fuses` followed
by `read_fuses` against the device that stores the buffer written per opcode
sets every declared name to its original value: the `Config_set_int` calls
are, in declaration order, exactly `(name, original value)`. -/
theorem fuses_round_trip (cfg : String → Nat) (buf0 buf1 : List Nat)
    (fuses : List fuse_decl_t) (hb0 : buf0.length = 11) (hs : sorted_by_opcode fuses)
    (hf : fields_ok fuses) (hrep : ∀ d ∈ fuses, cfg d.name < 256 ^ d.length) :
    (write_fuses cfg buf0 fuses).outcome = Outcome.ok ∧
    (read_fuses (stored_read_fuses (write_fuses cfg buf0 fuses).trace) buf1 fuses).outcome
      = Outcome.ok ∧
    (read_fuses (stored_read_fuses (write_fuses cfg buf0 fuses).trace) buf1 fuses).sets
      = fuses.map (fun d => (d.name, cfg d.name)) ∧
    (∀ name,
      config_value
          (read_fuses (stored_read_fuses (write_fuses cfg buf0 fuses).trace) buf1 fuses).sets
          name
        = if name ∈ fuses.map fuse_decl_t.name then some (cfg name) else none) := by
  have hsets : (read_fuses (stored_read_fuses (write_fuses cfg buf0 fuses).trace) buf1
      fuses).sets = fuses.map (fun d => (d.name, cfg d.name)) := by
    unfold read_fuses
    have hin : ∀ r : fuses_run, (in_transaction r).sets = r.sets := by
      intro r; unfold in_transaction; cases r.outcome <;> rfl
    rw [hin]
    apply fuses_loop_sets_table _ fuses _ _ hs
    intro o dl buf ho
    obtain ⟨b, hb, hgood⟩ := stored_buffer_write_fuses cfg buf0 fuses hb0 hs hf hrep o ho
    have hrd : stored_read_fuses (write_fuses cfg buf0 fuses).trace o dl buf = b := by
      simp [stored_read_fuses, hb]
    show read_fuses_unpack (stored_read_fuses (write_fuses cfg buf0 fuses).trace o dl buf) o fuses
      = _
    rw [hrd]
    apply read_fuses_unpack_eq
    intro d hd hdo
    rw [hgood d hd hdo]
  refine ⟨?_, ?_, hsets, ?_⟩
  · unfold write_fuses
    rw [in_transaction_outcome]
    exact (fuses_loop_ok_iff_sorted _ fuses 0 buf0).2 hs
  · unfold read_fuses
    rw [in_transaction_outcome]
    exact (fuses_loop_ok_iff_sorted _ fuses 0 buf1).2 hs
  · intro name
    rw [hsets, config_value_map cfg _ (by simp) name]
    simp [Function.comp_def]

/-- Witness for C6: two user-id bytes under opcode 17 and a two-byte
configuration word under opcode 18. -/
theorem fuses_round_trip_witness :
    ((List.replicate 11 238).length = 11 ∧
      sorted_by_opcode
        [⟨"user_id0", 17, 1, 0⟩, ⟨"user_id1", 17, 1, 1⟩, ⟨"conf_word", 18, 2, 0⟩] ∧
      fields_ok [⟨"user_id0", 17, 1, 0⟩, ⟨"user_id1", 17, 1, 1⟩, ⟨"conf_word", 18, 2, 0⟩] ∧
      ∀ d ∈ ([⟨"user_id0", 17, 1, 0⟩, ⟨"user_id1", 17, 1, 1⟩, ⟨"conf_word", 18, 2, 0⟩] :
          List fuse_decl_t),
        (fun n => if n = "conf_word" then 16383 else 5) d.name < 256 ^ d.length) ∧
    (read_fuses
        (stored_read_fuses
          (write_fuses (fun n => if n = "conf_word" then 16383 else 5) (List.replicate 11 238)
            [⟨"user_id0", 17, 1, 0⟩, ⟨"user_id1", 17, 1, 1⟩, ⟨"conf_word", 18, 2, 0⟩]).trace)
        (List.replicate 11 170)
        [⟨"user_id0", 17, 1, 0⟩, ⟨"user_id1", 17, 1, 1⟩, ⟨"conf_word", 18, 2, 0⟩]).sets
      = ([⟨"user_id0", 17, 1, 0⟩, ⟨"user_id1", 17, 1, 1⟩, ⟨"conf_word", 18, 2, 0⟩] :
          List fuse_decl_t).map
          (fun d => (d.name, (fun n => if n = "conf_word" then 16383 else 5) d.name)) :=
  ⟨⟨by decide, by decide, by decide, by decide⟩,
   (fuses_round_trip (fun n => if n = "conf_word" then 16383 else 5) (List.replicate 11 238)
      (List.replicate 11 170)
      [⟨"user_id0", 17, 1, 0⟩, ⟨"user_id1", 17, 1, 1⟩, ⟨"conf_word", 18, 2, 0⟩]
      (by decide) (by decide) (by decide) (by decide)).2.2.1⟩

/-! ## The write action: size validation -/

theorem action_write_of_check_ok (opts : cmdopts_t) (env : write_env) (device : device_t)
    (h : (action_write_check opts env device).2 = Outcome.ok) :
    action_write opts env device
      = ⟨(action_write_check opts env device).1,
          (((proc_run.mk (action_write_erase opts ++ action_write_status opts device)
            Outcome.ok).and_then (action_write_region opts env device)).and_then
              ⟨action_write_protect opts device, Outcome.ok⟩).trace,
          (((proc_run.mk (action_write_erase opts ++ action_write_status opts device)
            Outcome.ok).and_then (action_write_region opts env device)).and_then
              ⟨action_write_protect opts device, Outcome.ok⟩).outcome⟩ := by
  unfold action_write
  rw [h]

theorem and_then_trace_prefix (r next : proc_run) :
    ∃ rest, (r.and_then next).trace = r.trace ++ rest := by
  unfold proc_run.and_then
  cases r.outcome with
  | ok => exact ⟨next.trace, rfl⟩
  | fatal msg => exact ⟨[], by simp⟩

theorem action_write_reaches_write (opts : cmdopts_t) (env : write_env) (device : device_t)
    (wtype rtype size : Nat)
    (hc : (action_write_check opts env device).2 = Outcome.ok)
    (hr : action_write_region opts env device = write_and_verify env device wtype rtype size) :
    ∃ rest, (action_write opts env device).trace
      = action_write_erase opts ++ action_write_status opts device ++
          write_page_ram device wtype size ++ rest := by
  rw [action_write_of_check_ok opts env device hc, hr]
  obtain ⟨r1, h1⟩ := and_then_trace_prefix
    ((proc_run.mk (action_write_erase opts ++ action_write_status opts device)
      Outcome.ok).and_then (write_and_verify env device wtype rtype size))
    ⟨action_write_protect opts device, Outcome.ok⟩
  obtain ⟨r2, h2⟩ := and_then_trace_prefix (write_page_file device wtype size)
    ⟨(verify_page_file device env.file env.chip_data env.fsize rtype size).trace,
      (verify_page_file device env.file env.chip_data env.fsize rtype size).outcome⟩
  refine ⟨r2 ++ r1, ?_⟩
  simp only at h1 ⊢
  rw [h1]
  simp only [proc_run.and_then]
  unfold write_and_verify
  rw [h2]
  simp [write_page_file]

/-- C11: when the file size differs from the size of the region (code memory
for Code and Unspecified, data memory for Data), `action_write` with
`size_error` set ends in the fatal size error with no device command issued;
with `size_error` clear it goes on to the write, after the warning when
`size_nowarn` is clear and with no message when it is set; for Config the
file size and the two options play no part.  The region size 2048 with a
file of 2000 bytes is an instance. -/
theorem action_write_size_validation (opts : cmdopts_t) (env : write_env) (device : device_t) :
    ((opts.page = page_t.UNSPECIFIED ∨ opts.page = page_t.CODE) →
      env.file.length ≠ device.code_memory_size →
      (opts.size_error ≠ 0 →
        action_write opts env device
          = ⟨false, [], Outcome.fatal "Incorrect file size: %d (needed %d)"⟩) ∧
      (opts.size_error = 0 →
        (action_write opts env device).warned = decide (opts.size_nowarn = 0) ∧
        ∃ rest, (action_write opts env device).trace
          = action_write_erase opts ++ action_write_status opts device ++
              write_page_ram device (env.code mp_type.MP_WRITE_CODE) device.code_memory_size ++
              rest)) ∧
    (opts.page = page_t.DATA →
      env.file.length ≠ device.data_memory_size →
      (opts.size_error ≠ 0 →
        action_write opts env device
          = ⟨false, [], Outcome.fatal "Incorrect file size: %d (needed %d)"⟩) ∧
      (opts.size_error = 0 →
        (action_write opts env device).warned = decide (opts.size_nowarn = 0) ∧
        ∃ rest, (action_write opts env device).trace
          = action_write_erase opts ++ action_write_status opts device ++
              write_page_ram device (env.code mp_type.MP_WRITE_DATA) device.data_memory_size ++
              rest)) ∧
    (opts.page = page_t.CONFIG →
      (action_write opts env device).warned = false ∧
      ∀ (file : List Nat) (size_error size_nowarn : Nat),
        action_write { opts with size_error := size_error, size_nowarn := size_nowarn }
            { env with file := file } device
          = action_write opts env device) ∧
    (device.code_memory_size = 2048 → env.file.length = 2000 → opts.page = page_t.CODE →
      opts.size_error ≠ 0 →
      action_write opts env device
        = ⟨false, [], Outcome.fatal "Incorrect file size: %d (needed %d)"⟩) := by
  have strict : ∀ needed, env.file.length ≠ needed → opts.size_error ≠ 0 →
      size_check opts env.file.length needed
        = (false, Outcome.fatal "Incorrect file size: %d (needed %d)") := by
    intro needed h1 h2
    simp [size_check, h1, h2]
  have lax : ∀ needed, env.file.length ≠ needed → opts.size_error = 0 →
      size_check opts env.file.length needed = (decide (opts.size_nowarn = 0), Outcome.ok) := by
    intro needed h1 h2
    by_cases h3 : opts.size_nowarn = 0 <;> simp [size_check, h1, h2, h3]
  have code_strict : (opts.page = page_t.UNSPECIFIED ∨ opts.page = page_t.CODE) →
      env.file.length ≠ device.code_memory_size → opts.size_error ≠ 0 →
      action_write opts env device
        = ⟨false, [], Outcome.fatal "Incorrect file size: %d (needed %d)"⟩ := by
    intro hp h1 h2
    have hc : action_write_check opts env device
        = (false, Outcome.fatal "Incorrect file size: %d (needed %d)") := by
      rcases hp with hp | hp <;> simp [action_write_check, hp, strict _ h1 h2]
    simp [action_write, hc]
  refine ⟨?_, ?_, ?_, ?_⟩
  · intro hp h1
    refine ⟨code_strict hp h1, ?_⟩
    intro h2
    have hc : action_write_check opts env device = (decide (opts.size_nowarn = 0), Outcome.ok) := by
      rcases hp with hp | hp <;> simp [action_write_check, hp, lax _ h1 h2]
    have hc2 : (action_write_check opts env device).2 = Outcome.ok := by rw [hc]
    constructor
    · rw [action_write_of_check_ok opts env device hc2, hc]
    · apply action_write_reaches_write opts env device _ (env.code mp_type.MP_READ_CODE) _ hc2
      rcases hp with hp | hp <;> simp [action_write_region, hp]
  · intro hp h1
    constructor
    · intro h2
      have hc : action_write_check opts env device
          = (false, Outcome.fatal "Incorrect file size: %d (needed %d)") := by
        simp [action_write_check, hp, strict _ h1 h2]
      simp [action_write, hc]
    · intro h2
      have hc : action_write_check opts env device
          = (decide (opts.size_nowarn = 0), Outcome.ok) := by
        simp [action_write_check, hp, lax _ h1 h2]
      have hc2 : (action_write_check opts env device).2 = Outcome.ok := by rw [hc]
      constructor
      · rw [action_write_of_check_ok opts env device hc2, hc]
      · apply action_write_reaches_write opts env device _ (env.code mp_type.MP_READ_DATA) _ hc2
        simp [action_write_region, hp]
  · intro hp
    constructor
    · have hc : action_write_check opts env device = (false, Outcome.ok) := by
        simp [action_write_check, hp]
      have hc2 : (action_write_check opts env device).2 = Outcome.ok := by rw [hc]
      rw [action_write_of_check_ok opts env device hc2, hc]
    · intro file size_error size_nowarn
      simp [action_write, action_write_check, action_write_region, action_write_erase,
        action_write_status, action_write_protect, hp]
  · intro hs hf hp h2
    exact code_strict (Or.inr hp) (by rw [hs, hf]; decide) h2

/-- Witness for C11: a region of 2048 bytes and a file of 2000 bytes, with
`size_error` set and with both options clear. -/
theorem action_write_size_validation_witness :
    action_write ⟨page_t.CODE, 0, 0, 0, 1, 0⟩
        ⟨List.replicate 2000 0, [], 0, fun _ => 0, [], fun _ => 0⟩ ⟨64, 64, 2048, 0, 0, none⟩
      = ⟨false, [], Outcome.fatal "Incorrect file size: %d (needed %d)"⟩ ∧
    (action_write ⟨page_t.CODE, 0, 0, 0, 0, 0⟩
        ⟨List.replicate 2000 0, [], 0, fun _ => 0, [], fun _ => 0⟩
        ⟨64, 64, 2048, 0, 0, none⟩).warned = true :=
  ⟨((action_write_size_validation ⟨page_t.CODE, 0, 0, 0, 1, 0⟩
        ⟨List.replicate 2000 0, [], 0, fun _ => 0, [], fun _ => 0⟩
        ⟨64, 64, 2048, 0, 0, none⟩).1 (Or.inr rfl)
        (by show (List.replicate 2000 0).length ≠ 2048; rw [List.length_replicate]; decide)).1
      (by decide),
   (((action_write_size_validation ⟨page_t.CODE, 0, 0, 0, 0, 0⟩
        ⟨List.replicate 2000 0, [], 0, fun _ => 0, [], fun _ => 0⟩
        ⟨64, 64, 2048, 0, 0, none⟩).1 (Or.inr rfl)
        (by show (List.replicate 2000 0).length ≠ 2048; rw [List.length_replicate]; decide)).2
      rfl).1⟩

/-! ## Transaction brackets -/

theorem open_brackets_append :
    ∀ (a b : List Ev) (k : Nat),
      open_brackets k (a ++ b) = (open_brackets k a).bind (fun j => open_brackets j b) := by
  intro a
  induction a with
  | nil => intro b k; simp [open_brackets]
  | cons e es ih =>
    intro b k
    cases e with
    | minipro_begin_transaction => simp [open_brackets, ih]
    | minipro_end_transaction =>
      cases k with
      | zero => simp [open_brackets]
      | succ k => simp [open_brackets, ih]
    | _ => simp [open_brackets, ih]

theorem open_brackets_plain :
    ∀ (l : List Ev) (k : Nat), (∀ e ∈ l, is_plain e = true) → open_brackets k l = some k := by
  intro l
  induction l with
  | nil => intro k _; simp [open_brackets]
  | cons e es ih =>
    intro k h
    have he := h e (List.mem_cons_self _ _)
    have hes := ih k (fun x hx => h x (List.mem_cons_of_mem _ hx))
    cases e <;> simp [is_plain] at he <;> simp [open_brackets, hes]

theorem open_brackets_shift :
    ∀ (l : List Ev) (k j : Nat), open_brackets k l = some j →
      open_brackets (k + 1) l = some (j + 1) := by
  intro l
  induction l with
  | nil => intro k j h; simp [open_brackets] at h ⊢; exact h
  | cons e es ih =>
    intro k j h
    cases e with
    | minipro_begin_transaction =>
      simp only [open_brackets] at h ⊢
      exact ih _ _ h
    | minipro_end_transaction =>
      cases k with
      | zero => simp [open_brackets] at h
      | succ k =>
        simp only [open_brackets] at h ⊢
        exact ih _ _ h
    | _ =>
      simp only [open_brackets] at h ⊢
      exact ih _ _ h

theorem is_plain_not_step (e : Ev) (h : is_plain e = true) : is_step_command e = false := by
  cases e <;> simp [is_plain] at h <;> rfl

theorem read_page_ram_loop_plain (device : device_t) (type size bc : Nat) :
    ∀ todo i, ∀ e ∈ read_page_ram_loop device type size bc todo i, is_plain e = true := by
  intro todo
  induction todo with
  | zero => intro i e he; simp [read_page_ram_loop] at he
  | succ n ih =>
    intro i e he
    simp only [read_page_ram_loop, read_page_ram_body, List.cons_append, List.nil_append,
      List.mem_cons] at he
    rcases he with rfl | rfl | he
    · rfl
    · rfl
    · exact ih _ e he

theorem write_page_ram_loop_plain (device : device_t) (type size bc : Nat) :
    ∀ todo i, ∀ e ∈ write_page_ram_loop device type size bc todo i, is_plain e = true := by
  intro todo
  induction todo with
  | zero => intro i e he; simp [write_page_ram_loop] at he
  | succ n ih =>
    intro i e he
    simp only [write_page_ram_loop, write_page_ram_body, List.cons_append, List.nil_append,
      List.mem_cons] at he
    rcases he with rfl | rfl | he
    · rfl
    · rfl
    · exact ih _ e he

theorem read_page_ram_plain (device : device_t) (type size : Nat) :
    ∀ e ∈ read_page_ram device type size, is_plain e = true := by
  intro e he
  simp only [read_page_ram, List.mem_append, List.mem_singleton] at he
  rcases he with he | rfl
  · exact read_page_ram_loop_plain _ _ _ _ _ _ e he
  · rfl

theorem write_page_ram_plain (device : device_t) (type size : Nat) :
    ∀ e ∈ write_page_ram device type size, is_plain e = true := by
  intro e he
  simp only [write_page_ram, List.mem_append, List.mem_singleton] at he
  rcases he with he | rfl
  · exact write_page_ram_loop_plain _ _ _ _ _ _ e he
  · rfl

theorem fuses_loop_plain (act : Nat → Int → List Nat → run_action)
    (hact : ∀ o dl buf, is_plain (act o dl buf).ev = true) :
    ∀ (l : List fuse_decl_t) (dl : Int) (o : Nat) (buf : List Nat),
      ∀ e ∈ (fuses_loop act l dl o buf).trace, is_plain e = true := by
  intro l
  induction l with
  | nil => intro dl o buf e he; simp [fuses_loop] at he
  | cons d l ih =>
    intro dl o buf e he
    by_cases hlt : d.minipro_cmd < o
    · rw [fuses_loop_fatal _ d l dl o buf hlt] at he
      simp at he
    · by_cases hbd : l = [] ∨ o < next_cmd l
      · rw [fuses_loop_boundary _ d l dl o buf hlt hbd] at he
        rcases List.mem_cons.1 he with h | h
        · rw [h]; exact hact _ _ _
        · exact ih _ _ _ e h
      · rw [fuses_loop_same _ d l dl o buf hlt (fun h => hbd (Or.inl h))
          (fun h => hbd (Or.inr h))] at he
        exact ih _ _ _ e he

theorem in_transaction_open_ok (r : fuses_run) (k : Nat) (hok : r.outcome = Outcome.ok)
    (hp : ∀ e ∈ r.trace, is_plain e = true) :
    open_brackets k (in_transaction r).trace = some k := by
  rw [in_transaction_trace_ok r hok]
  simp only [open_brackets]
  rw [open_brackets_append, open_brackets_plain _ _ hp]
  simp [open_brackets]

theorem in_transaction_open_fatal (r : fuses_run) (k : Nat) (msg : String)
    (hf : r.outcome = Outcome.fatal msg) (hp : ∀ e ∈ r.trace, is_plain e = true) :
    open_brackets k (in_transaction r).trace = some (k + 1) := by
  rw [in_transaction_trace_fatal r msg hf]
  simp only [open_brackets]
  exact open_brackets_plain _ _ hp

theorem verify_page_file_ok (device : device_t) (file chip_data : List Nat)
    (fsize type size : Nat)
    (h : (compare_memory file chip_data file.length 0 0).idx = -1) :
    (verify_page_file device file chip_data fsize type size).trace
        = Ev.minipro_begin_transaction ::
            (read_page_ram device type size ++ [Ev.minipro_end_transaction]) ∧
    (verify_page_file device file chip_data fsize type size).outcome = Outcome.ok := by
  simp [verify_page_file, h]

theorem verify_page_file_mismatch (device : device_t) (file chip_data : List Nat)
    (fsize type size : Nat)
    (h : (compare_memory file chip_data file.length 0 0).idx ≠ -1) :
    (verify_page_file device file chip_data fsize type size).trace
        = Ev.minipro_begin_transaction :: read_page_ram device type size ∧
    (verify_page_file device file chip_data fsize type size).outcome
        = Outcome.fatal "Verification failed at 0x%02x: 0x%02x != 0x%02x" := by
  simp [verify_page_file, h]

/-! ## Brackets of the write action and of fatal errors -/

/-- C12 fails on the code: with `cmdopts.erase` set (`-e`) the
`minipro_begin_transaction` of the erase step is still issued, without its
`minipro_end_transaction`, so one bracket is left open when `action_write`
returns; shown for Config on a device without fuses and for Code on a device
with 4 bytes of code memory. -/
theorem action_write_skip_erase_unbalanced :
    action_write ⟨page_t.CONFIG, 1, 0, 0, 0, 0⟩
        ⟨[], [], 0, fun _ => 0, List.replicate 11 0, fun _ => 0⟩ ⟨2, 2, 4, 0, 0, none⟩
      = ⟨false,
          [Ev.minipro_begin_transaction, Ev.minipro_begin_transaction, Ev.minipro_get_status,
            Ev.minipro_end_transaction],
          Outcome.ok⟩ ∧
    open_brackets 0
        (action_write ⟨page_t.CONFIG, 1, 0, 0, 0, 0⟩
          ⟨[], [], 0, fun _ => 0, List.replicate 11 0, fun _ => 0⟩
          ⟨2, 2, 4, 0, 0, none⟩).trace = some 1 ∧
    (action_write ⟨page_t.CODE, 1, 0, 0, 0, 0⟩
        ⟨[1, 2, 3, 4], [1, 2, 3, 4], 0, fun _ => 0, List.replicate 11 0, fun _ => 0⟩
        ⟨2, 2, 4, 0, 0, none⟩).outcome = Outcome.ok ∧
    open_brackets 0
        (action_write ⟨page_t.CODE, 1, 0, 0, 0, 0⟩
          ⟨[1, 2, 3, 4], [1, 2, 3, 4], 0, fun _ => 0, List.replicate 11 0, fun _ => 0⟩
          ⟨2, 2, 4, 0, 0, none⟩).trace = some 1 ∧
    open_brackets 0
        (action_write ⟨page_t.CODE, 0, 0, 0, 0, 0⟩
          ⟨[1, 2, 3, 4], [1, 2, 3, 4], 0, fun _ => 0, List.replicate 11 0, fun _ => 0⟩
          ⟨2, 2, 4, 0, 0, none⟩).trace = some 0 := by
  decide

/-- C13 fails on the code: when the read-back of a 4-byte page differs from
the file at index 2, `verify_page_file` ends in the fatal error after
`minipro_begin_transaction` and the block reads, with no
`minipro_end_transaction` (it stands after the `ERROR2` call), so its
bracket is open when the process ends; `read_fuses` and `write_fuses` on the
unsorted opcodes 2, 1 end the same way. -/
theorem fatal_error_bracket_not_released :
    verify_page_file ⟨2, 2, 4, 0, 0, none⟩ [1, 2, 3, 4] [1, 2, 9, 4] 0 0 4
      = ⟨[Ev.minipro_begin_transaction, Ev.update_status 0, Ev.minipro_read_block 0 0 0 2,
            Ev.update_status 50, Ev.minipro_read_block 0 2 2 2, Ev.update_status_OK],
          Outcome.fatal "Verification failed at 0x%02x: 0x%02x != 0x%02x", 4, 0, 4⟩ ∧
    ¬ well_bracketed
        (verify_page_file ⟨2, 2, 4, 0, 0, none⟩ [1, 2, 3, 4] [1, 2, 9, 4] 0 0 4).trace ∧
    (read_fuses (fun _ _ b => b) (List.replicate 11 0)
        [⟨"a", 2, 1, 0⟩, ⟨"b", 1, 1, 0⟩]).trace = [Ev.minipro_begin_transaction] ∧
    (write_fuses (fun _ => 0) (List.replicate 11 0)
        [⟨"a", 2, 1, 0⟩, ⟨"b", 1, 1, 0⟩]).trace = [Ev.minipro_begin_transaction] ∧
    ¬ well_bracketed [Ev.minipro_begin_transaction] := by
  decide

theorem plain_no_end (l : List Ev) (h : ∀ e ∈ l, is_plain e = true) :
    Ev.minipro_end_transaction ∉ Ev.minipro_begin_transaction :: l := by
  intro hmem
  rcases List.mem_cons.1 hmem with h1 | h1
  · cases h1
  · have := h _ h1
    simp [is_plain] at this

/-- On every verification mismatch in `verify_page_file`, and on every
unsorted table in `read_fuses` and `write_fuses`, the function ends in the
fatal error without a `minipro_end_transaction` of its own: the bracket it
opened is still open, on top of the `k` brackets open when it was called. -/
theorem fatal_error_leaves_bracket_open (device : device_t) (file chip_data : List Nat)
    (fsize type size k : Nat) (rd : Nat → Int → List Nat → List Nat) (cfg : String → Nat)
    (buf0 : List Nat) (fuses : List fuse_decl_t) :
    ((compare_memory file chip_data file.length 0 0).idx ≠ -1 →
      (verify_page_file device file chip_data fsize type size).outcome
        = Outcome.fatal "Verification failed at 0x%02x: 0x%02x != 0x%02x" ∧
      open_brackets k (verify_page_file device file chip_data fsize type size).trace
        = some (k + 1) ∧
      Ev.minipro_end_transaction
        ∉ (verify_page_file device file chip_data fsize type size).trace) ∧
    (¬ sorted_by_opcode fuses →
      ((read_fuses rd buf0 fuses).outcome = Outcome.fatal "fuse_decls are not sorted" ∧
        open_brackets k (read_fuses rd buf0 fuses).trace = some (k + 1) ∧
        Ev.minipro_end_transaction ∉ (read_fuses rd buf0 fuses).trace) ∧
      ((write_fuses cfg buf0 fuses).outcome = Outcome.fatal "fuse_decls are not sorted" ∧
        open_brackets k (write_fuses cfg buf0 fuses).trace = some (k + 1) ∧
        Ev.minipro_end_transaction ∉ (write_fuses cfg buf0 fuses).trace)) := by
  constructor
  · intro h
    obtain ⟨ht, ho⟩ := verify_page_file_mismatch device file chip_data fsize type size h
    refine ⟨ho, ?_, ?_⟩
    · rw [ht]
      simp only [open_brackets]
      exact open_brackets_plain _ _ (read_page_ram_plain device type size)
    · rw [ht]
      exact plain_no_end _ (read_page_ram_plain device type size)
  · intro hns
    constructor
    · have hf := (fuses_loop_fatal_iff (read_fuses_action rd fuses) fuses 0 buf0).2 hns
      have hp := fuses_loop_plain (read_fuses_action rd fuses) (fun _ _ _ => rfl) fuses 0
        (next_cmd fuses) buf0
      unfold read_fuses
      refine ⟨by rw [in_transaction_outcome]; exact hf,
        in_transaction_open_fatal _ k _ hf hp, ?_⟩
      rw [in_transaction_trace_fatal _ _ hf]
      exact plain_no_end _ hp
    · have hf := (fuses_loop_fatal_iff (write_fuses_action cfg fuses) fuses 0 buf0).2 hns
      have hp := fuses_loop_plain (write_fuses_action cfg fuses) (fun _ _ _ => rfl) fuses 0
        (next_cmd fuses) buf0
      unfold write_fuses
      refine ⟨by rw [in_transaction_outcome]; exact hf,
        in_transaction_open_fatal _ k _ hf hp, ?_⟩
      rw [in_transaction_trace_fatal _ _ hf]
      exact plain_no_end _ hp

/-! ## Verification sizes and chunking agreement -/

/-- C16 fails on the code: in Warn mode a page of 4 bytes and a file of 6
bytes reach `verify_page_file`, which reads 4 bytes back from the chip and
passes 6 to `compare_memory`; with a file of 3 bytes it reads 4 bytes back
and compares 3.  The chip buffer is allocated with the unassigned local
`fsize` (here 0). -/
theorem verify_page_file_sizes_differ :
    action_write_check ⟨page_t.CODE, 0, 0, 0, 0, 0⟩
        ⟨[1, 2, 3, 4, 5, 6], [1, 2, 3, 4], 0, fun _ => 0, [], fun _ => 0⟩
        ⟨2, 2, 4, 0, 0, none⟩ = (true, Outcome.ok) ∧
    (verify_page_file ⟨2, 2, 4, 0, 0, none⟩ [1, 2, 3, 4, 5, 6] [1, 2, 3, 4] 0 0 4).compare_size
      = 6 ∧
    (verify_page_file ⟨2, 2, 4, 0, 0, none⟩ [1, 2, 3, 4, 5, 6] [1, 2, 3, 4] 0 0 4).file_buffer_size
      = 6 ∧
    (verify_page_file ⟨2, 2, 4, 0, 0, none⟩ [1, 2, 3, 4, 5, 6] [1, 2, 3, 4] 0 0 4).chip_buffer_size
      = 0 ∧
    ((read_blocks
        (verify_page_file ⟨2, 2, 4, 0, 0, none⟩ [1, 2, 3, 4, 5, 6] [1, 2, 3, 4] 0 0 4).trace).map
        Block.len).sum = 4 ∧
    (verify_page_file ⟨2, 2, 4, 0, 0, none⟩ [1, 2, 3] [1, 2, 3, 4] 0 0 4).compare_size = 3 ∧
    ((read_blocks
        (verify_page_file ⟨2, 2, 4, 0, 0, none⟩ [1, 2, 3] [1, 2, 3, 4] 0 0 4).trace).map
        Block.len).sum = 4 := by
  decide

/-- C18: on a device whose read and write block sizes are the same `C > 0`,
`write_page_ram` and `read_page_ram` issue the same list of blocks (device
address, buffer offset, length) for every region size. -/
theorem write_read_blocks_agree (device : device_t) (wtype rtype size : Nat)
    (hC : 0 < device.read_buffer_size)
    (heq : device.write_buffer_size = device.read_buffer_size) :
    write_blocks (write_page_ram device wtype size)
      = read_blocks (read_page_ram device rtype size) := by
  have _ := hC
  rw [write_blocks_write_page_ram, read_blocks_read_page_ram]
  have h1 : write_blocks_count device size = read_blocks_count device size := by
    simp [write_blocks_count, read_blocks_count, heq]
  have h2 : write_block_at device size = read_block_at device size := by
    funext i
    simp [write_block_at, read_block_at, heq]
  rw [h1, h2]

/-- Witness for C18: 100 bytes in blocks of 64. -/
theorem write_read_blocks_agree_witness :
    (0 < (device_t.mk 64 64 100 0 0 none).read_buffer_size ∧
      (device_t.mk 64 64 100 0 0 none).write_buffer_size
        = (device_t.mk 64 64 100 0 0 none).read_buffer_size) ∧
    write_blocks (write_page_ram (device_t.mk 64 64 100 0 0 none) 0 100)
      = read_blocks (read_page_ram (device_t.mk 64 64 100 0 0 none) 1 100) :=
  ⟨⟨by decide, rfl⟩,
   write_read_blocks_agree (device_t.mk 64 64 100 0 0 none) 0 1 100 (by decide) rfl⟩

/-! ## The write action: steps -/

theorem and_then_ok (r next : proc_run) (h : r.outcome = Outcome.ok) :
    r.and_then next = ⟨r.trace ++ next.trace, next.outcome⟩ := by
  unfold proc_run.and_then; rw [h]

theorem and_then_fatal (r next : proc_run) (msg : String) (h : r.outcome = Outcome.fatal msg) :
    r.and_then next = ⟨r.trace, Outcome.fatal msg⟩ := by
  unfold proc_run.and_then; rw [h]

theorem action_write_ok (opts : cmdopts_t) (env : write_env) (device : device_t)
    (hok : (action_write opts env device).outcome = Outcome.ok) :
    (action_write_region opts env device).outcome = Outcome.ok ∧
    (action_write opts env device).trace
      = action_write_erase opts ++ action_write_status opts device ++
          (action_write_region opts env device).trace ++ action_write_protect opts device := by
  cases hc : (action_write_check opts env device).2 with
  | fatal msg =>
    simp [action_write, hc] at hok
  | ok =>
    rw [action_write_of_check_ok opts env device hc] at hok ⊢
    simp only at hok ⊢
    rw [and_then_ok (proc_run.mk (action_write_erase opts ++ action_write_status opts device)
      Outcome.ok) (action_write_region opts env device) rfl] at hok ⊢
    cases hr : (action_write_region opts env device).outcome with
    | fatal msg =>
      rw [and_then_fatal _ _ msg (by simp [hr])] at hok
      simp at hok
    | ok =>
      rw [and_then_ok _ _ (by simp [hr])]
      simp

theorem write_and_verify_ok (env : write_env) (device : device_t) (wtype rtype size : Nat)
    (hok : (write_and_verify env device wtype rtype size).outcome = Outcome.ok) :
    (write_and_verify env device wtype rtype size).trace
      = write_page_ram device wtype size ++
          Ev.minipro_begin_transaction ::
            (read_page_ram device rtype size ++ [Ev.minipro_end_transaction]) := by
  unfold write_and_verify at hok ⊢
  rw [and_then_ok _ _ rfl] at hok ⊢
  simp only at hok ⊢
  by_cases h : (compare_memory env.file env.chip_data env.file.length 0 0).idx = -1
  · rw [(verify_page_file_ok device env.file env.chip_data env.fsize rtype size h).1]
    rfl
  · rw [(verify_page_file_mismatch device env.file env.chip_data env.fsize rtype size h).2]
      at hok
    simp at hok

theorem bracket_not_step (l : List Ev)
    (h : ∀ e ∈ l, is_plain e = true ∨ e = Ev.minipro_begin_transaction ∨
      e = Ev.minipro_end_transaction) :
    ∀ e ∈ l, is_step_command e = false := by
  intro e he
  rcases h e he with h1 | h1 | h1
  · exact is_plain_not_step e h1
  · rw [h1]; rfl
  · rw [h1]; rfl

theorem in_transaction_events (r : fuses_run) (hp : ∀ e ∈ r.trace, is_plain e = true) :
    ∀ e ∈ (in_transaction r).trace, is_plain e = true ∨ e = Ev.minipro_begin_transaction ∨
      e = Ev.minipro_end_transaction := by
  intro e he
  unfold in_transaction at he
  cases hr : r.outcome with
  | ok =>
    rw [hr] at he
    simp only [List.mem_cons, List.mem_append, List.not_mem_nil, or_false] at he
    rcases he with h | h | h
    · exact Or.inr (Or.inl h)
    · exact Or.inl (hp e h)
    · exact Or.inr (Or.inr h)
  | fatal msg =>
    rw [hr] at he
    simp only [List.mem_cons] at he
    rcases he with h | h
    · exact Or.inr (Or.inl h)
    · exact Or.inl (hp e h)

theorem write_and_verify_events (env : write_env) (device : device_t)
    (wtype rtype size : Nat) :
    ∀ e ∈ (write_and_verify env device wtype rtype size).trace,
      is_plain e = true ∨ e = Ev.minipro_begin_transaction ∨
        e = Ev.minipro_end_transaction := by
  intro e he
  unfold write_and_verify at he
  rw [and_then_ok _ _ rfl] at he
  simp only [write_page_file, List.mem_append] at he
  rcases he with h | h
  · exact Or.inl (write_page_ram_plain device wtype size e h)
  · by_cases hc : (compare_memory env.file env.chip_data env.file.length 0 0).idx = -1
    · rw [(verify_page_file_ok device env.file env.chip_data env.fsize rtype size hc).1] at h
      simp only [List.mem_cons, List.mem_append, List.not_mem_nil, or_false] at h
      rcases h with h | h | h
      · exact Or.inr (Or.inl h)
      · exact Or.inl (read_page_ram_plain device rtype size e h)
      · exact Or.inr (Or.inr h)
    · rw [(verify_page_file_mismatch device env.file env.chip_data env.fsize rtype size hc).1]
        at h
      simp only [List.mem_cons] at h
      rcases h with h | h
      · exact Or.inr (Or.inl h)
      · exact Or.inl (read_page_ram_plain device rtype size e h)

theorem action_write_region_events (opts : cmdopts_t) (env : write_env) (device : device_t) :
    ∀ e ∈ (action_write_region opts env device).trace,
      is_plain e = true ∨ e = Ev.minipro_begin_transaction ∨
        e = Ev.minipro_end_transaction := by
  intro e he
  unfold action_write_region at he
  cases hp : opts.page with
  | UNSPECIFIED => rw [hp] at he; exact write_and_verify_events _ _ _ _ _ e he
  | CODE => rw [hp] at he; exact write_and_verify_events _ _ _ _ _ e he
  | DATA => rw [hp] at he; exact write_and_verify_events _ _ _ _ _ e he
  | CONFIG =>
    rw [hp] at he
    cases hf : device.fuses with
    | none => rw [hf] at he; simp at he
    | some fuses =>
      rw [hf] at he
      simp only at he
      unfold write_fuses at he
      exact in_transaction_events _
        (fuses_loop_plain (write_fuses_action env.cfg fuses) (fun _ _ _ => rfl) fuses 0
          (next_cmd fuses) env.buf0) e he

theorem count_step_zero (l : List Ev) (c : Ev) (hc : is_step_command c = true)
    (h : ∀ e ∈ l, is_step_command e = false) : l.count c = 0 := by
  rw [List.count_eq_zero]
  intro hmem
  have := h c hmem
  rw [hc] at this
  cases this

/-- C14: the trace of an `action_write` that completes is
`minipro_begin_transaction`, then `minipro_prepare_writing` and
`minipro_end_transaction` iff `erase` is clear, then
`minipro_begin_transaction`, `minipro_get_status`, then
`minipro_protect_off` iff `protect_off` is clear and `opts4 & 0xc000` is
set, then the calls of the region (for Code and Data the block writes
followed by the bracketed read-back), then `minipro_end_transaction`, then
the bracketed `minipro_protect_on` iff `protect_on` is clear and
`opts4 & 0xc000` is set; the region part holds none of these four commands,
so each occurs at most once, and in this order. -/
theorem action_write_steps (opts : cmdopts_t) (env : write_env) (device : device_t)
    (hok : (action_write opts env device).outcome = Outcome.ok) :
    (action_write opts env device).trace
      = (Ev.minipro_begin_transaction ::
          (if opts.erase = 0 then [Ev.minipro_prepare_writing, Ev.minipro_end_transaction]
           else [])) ++
        (Ev.minipro_begin_transaction :: Ev.minipro_get_status ::
          (if opts.protect_off = 0 ∧ device.opts4 &&& 0xc000 ≠ 0 then [Ev.minipro_protect_off]
           else [])) ++
        (action_write_region opts env device).trace ++
        (Ev.minipro_end_transaction ::
          (if opts.protect_on = 0 ∧ device.opts4 &&& 0xc000 ≠ 0 then
            [Ev.minipro_begin_transaction, Ev.minipro_protect_on, Ev.minipro_end_transaction]
           else [])) ∧
    (∀ e ∈ (action_write_region opts env device).trace, is_step_command e = false) ∧
    ((opts.page = page_t.UNSPECIFIED ∨ opts.page = page_t.CODE) →
      (action_write_region opts env device).trace
        = write_page_ram device (env.code mp_type.MP_WRITE_CODE) device.code_memory_size ++
            Ev.minipro_begin_transaction ::
              (read_page_ram device (env.code mp_type.MP_READ_CODE) device.code_memory_size ++
                [Ev.minipro_end_transaction])) ∧
    (opts.page = page_t.DATA →
      (action_write_region opts env device).trace
        = write_page_ram device (env.code mp_type.MP_WRITE_DATA) device.data_memory_size ++
            Ev.minipro_begin_transaction ::
              (read_page_ram device (env.code mp_type.MP_READ_DATA) device.data_memory_size ++
                [Ev.minipro_end_transaction])) ∧
    (action_write opts env device).trace.count Ev.minipro_prepare_writing
      = (if opts.erase = 0 then 1 else 0) ∧
    (action_write opts env device).trace.count Ev.minipro_get_status = 1 ∧
    (action_write opts env device).trace.count Ev.minipro_protect_off
      = (if opts.protect_off = 0 ∧ device.opts4 &&& 0xc000 ≠ 0 then 1 else 0) ∧
    (action_write opts env device).trace.count Ev.minipro_protect_on
      = (if opts.protect_on = 0 ∧ device.opts4 &&& 0xc000 ≠ 0 then 1 else 0) := by
  obtain ⟨hrok, htrace⟩ := action_write_ok opts env device hok
  have hreg := bracket_not_step _ (action_write_region_events opts env device)
  have hshape : (action_write opts env device).trace
      = (Ev.minipro_begin_transaction ::
          (if opts.erase = 0 then [Ev.minipro_prepare_writing, Ev.minipro_end_transaction]
           else [])) ++
        (Ev.minipro_begin_transaction :: Ev.minipro_get_status ::
          (if opts.protect_off = 0 ∧ device.opts4 &&& 0xc000 ≠ 0 then [Ev.minipro_protect_off]
           else [])) ++
        (action_write_region opts env device).trace ++
        (Ev.minipro_end_transaction ::
          (if opts.protect_on = 0 ∧ device.opts4 &&& 0xc000 ≠ 0 then
            [Ev.minipro_begin_transaction, Ev.minipro_protect_on, Ev.minipro_end_transaction]
           else [])) := by
    rw [htrace]
    simp [action_write_erase, action_write_status, action_write_protect, protect_support]
  have c1 := count_step_zero _ Ev.minipro_prepare_writing rfl hreg
  have c2 := count_step_zero _ Ev.minipro_get_status rfl hreg
  have c3 := count_step_zero _ Ev.minipro_protect_off rfl hreg
  have c4 := count_step_zero _ Ev.minipro_protect_on rfl hreg
  refine ⟨hshape, hreg, ?_, ?_, ?_, ?_, ?_, ?_⟩
  · intro hp
    have hr : action_write_region opts env device
        = write_and_verify env device (env.code mp_type.MP_WRITE_CODE)
            (env.code mp_type.MP_READ_CODE) device.code_memory_size := by
      rcases hp with hp | hp <;> simp [action_write_region, hp]
    rw [hr] at hrok ⊢
    exact write_and_verify_ok env device _ _ _ hrok
  · intro hp
    have hr : action_write_region opts env device
        = write_and_verify env device (env.code mp_type.MP_WRITE_DATA)
            (env.code mp_type.MP_READ_DATA) device.data_memory_size := by
      simp [action_write_region, hp]
    rw [hr] at hrok ⊢
    exact write_and_verify_ok env device _ _ _ hrok
  · rw [hshape]
    split_ifs <;>
      simp only [List.count_append, List.count_cons, List.count_nil, c1] <;> decide
  · rw [hshape]
    split_ifs <;>
      simp only [List.count_append, List.count_cons, List.count_nil, c2] <;> decide
  · rw [hshape]
    split_ifs <;>
      simp only [List.count_append, List.count_cons, List.count_nil, c3] <;> decide
  · rw [hshape]
    split_ifs <;>
      simp only [List.count_append, List.count_cons, List.count_nil, c4] <;> decide

/-- Witness for C14: a 4-byte code page written in blocks of 2 to a device
with protect bits, all steps enabled, read back unchanged. -/
theorem action_write_steps_witness :
    (action_write ⟨page_t.CODE, 0, 0, 0, 0, 0⟩
        ⟨[1, 2, 3, 4], [1, 2, 3, 4], 0, fun _ => 0, List.replicate 11 0, fun _ => 0⟩
        ⟨2, 2, 4, 0, 0xc000, none⟩).outcome = Outcome.ok ∧
    (action_write ⟨page_t.CODE, 0, 0, 0, 0, 0⟩
        ⟨[1, 2, 3, 4], [1, 2, 3, 4], 0, fun _ => 0, List.replicate 11 0, fun _ => 0⟩
        ⟨2, 2, 4, 0, 0xc000, none⟩).trace.count Ev.minipro_prepare_writing = 1 ∧
    (action_write ⟨page_t.CODE, 0, 0, 0, 0, 0⟩
        ⟨[1, 2, 3, 4], [1, 2, 3, 4], 0, fun _ => 0, List.replicate 11 0, fun _ => 0⟩
        ⟨2, 2, 4, 0, 0xc000, none⟩).trace.count Ev.minipro_protect_on = 1 :=
  ⟨by decide,
   (action_write_steps ⟨page_t.CODE, 0, 0, 0, 0, 0⟩
      ⟨[1, 2, 3, 4], [1, 2, 3, 4], 0, fun _ => 0, List.replicate 11 0, fun _ => 0⟩
      ⟨2, 2, 4, 0, 0xc000, none⟩ (by decide)).2.2.2.2.1,
   (action_write_steps ⟨page_t.CODE, 0, 0, 0, 0, 0⟩
      ⟨[1, 2, 3, 4], [1, 2, 3, 4], 0, fun _ => 0, List.replicate 11 0, fun _ => 0⟩
      ⟨2, 2, 4, 0, 0xc000, none⟩ (by decide)).2.2.2.2.2.2.2⟩

/-! ## The read action: one bracket -/

theorem action_read_shape (page : page_t) (filename : String) (device : device_t) :
    ∃ cs, action_read page filename device
        = read_call.minipro_begin_transaction :: (cs ++ [read_call.minipro_end_transaction]) ∧
      ∀ c ∈ cs, is_region_call c = true := by
  refine ⟨(action_read page filename device).tail.dropLast, ?_, ?_⟩
  · cases page <;> cases hf : device.fuses <;> by_cases hd : device.data_memory_size = 0 <;>
      simp [action_read, fall_through, action_read_case, switch_labels, hf, hd]
  · cases page <;> cases hf : device.fuses <;> by_cases hd : device.data_memory_size = 0 <;>
      simp [action_read, fall_through, action_read_case, switch_labels, hf, hd, is_region_call]

theorem action_read_run_regions (env : file_env) (code : mp_type → Nat)
    (rd : Nat → Int → List Nat → List Nat) (buf0 : List Nat) (device : device_t) :
    ∀ (cs : List read_call), (∀ c ∈ cs, is_region_call c = true) →
      (action_read_run env code rd buf0 device
          (cs ++ [read_call.minipro_end_transaction])).outcome = Outcome.ok →
      ∃ mid, (action_read_run env code rd buf0 device
          (cs ++ [read_call.minipro_end_transaction])).trace
            = mid ++ [Ev.minipro_end_transaction] ∧
        open_brackets 0 mid = some 0 := by
  intro cs
  induction cs with
  | nil =>
    intro _ _
    exact ⟨[], by simp [action_read_run, proc_run.and_then], by simp [open_brackets]⟩
  | cons c cs ih =>
    intro hreg hok
    have hreg' : ∀ x ∈ cs, is_region_call x = true :=
      fun x hx => hreg x (List.mem_cons_of_mem _ hx)
    have hc := hreg c (List.mem_cons_self _ _)
    cases c with
    | minipro_begin_transaction => simp [is_region_call] at hc
    | minipro_end_transaction => simp [is_region_call] at hc
    | read_page_file f t n sz =>
      simp only [List.cons_append, action_read_run, List.append_eq] at hok ⊢
      by_cases hf : env.fopen_ok f = false
      · have hr : read_page_file env device f (code t) sz
            = ⟨[], PERROR "Couldn't open file for writing"⟩ := by
          simp [read_page_file, hf]
        rw [hr, and_then_fatal _ _ _ rfl] at hok
        simp at hok
      · by_cases hm : env.malloc_ok sz = false
        · have hr : read_page_file env device f (code t) sz
              = ⟨[], ERROR "Can't malloc"⟩ := by
            simp [read_page_file, hf, hm]
          rw [hr, and_then_fatal _ _ _ rfl] at hok
          simp at hok
        · have hr : read_page_file env device f (code t) sz
              = ⟨read_page_ram device (code t) sz, Outcome.ok⟩ := by
            simp [read_page_file, hf, hm]
          rw [hr, and_then_ok _ _ rfl] at hok ⊢
          obtain ⟨mid, h1, h2⟩ := ih hreg' hok
          refine ⟨read_page_ram device (code t) sz ++ mid, ?_, ?_⟩
          · simp only
            rw [h1, List.append_assoc]
          · rw [open_brackets_append, open_brackets_plain _ _ (read_page_ram_plain _ _ _)]
            exact h2
    | read_fuses f fuses =>
      simp only [List.cons_append, action_read_run, List.append_eq] at hok ⊢
      by_cases hcfg : env.config_init_ok f = false
      · have hr : read_fuses_file env rd buf0 f fuses
            = ⟨[], PERROR "Couldn't create config"⟩ := by
          simp [read_fuses_file, hcfg]
        rw [hr, and_then_fatal _ _ _ rfl] at hok
        simp at hok
      · have hr : read_fuses_file env rd buf0 f fuses
            = ⟨(read_fuses rd buf0 fuses).trace, (read_fuses rd buf0 fuses).outcome⟩ := by
          simp [read_fuses_file, hcfg]
        rw [hr] at hok ⊢
        cases hrf : (read_fuses rd buf0 fuses).outcome with
        | fatal msg =>
          rw [hrf, and_then_fatal _ _ msg rfl] at hok
          simp at hok
        | ok =>
          rw [hrf, and_then_ok _ _ rfl] at hok
          rw [and_then_ok _ _ rfl]
          obtain ⟨mid, h1, h2⟩ := ih hreg' hok
          refine ⟨(read_fuses rd buf0 fuses).trace ++ mid, ?_, ?_⟩
          · simp only
            rw [h1, List.append_assoc]
          · have hloop : (fuses_loop (read_fuses_action rd fuses) fuses 0 (next_cmd fuses)
                buf0).outcome = Outcome.ok := by
              unfold read_fuses at hrf
              rw [in_transaction_outcome] at hrf
              exact hrf
            have hb : open_brackets 0 (read_fuses rd buf0 fuses).trace = some 0 := by
              unfold read_fuses
              exact in_transaction_open_ok _ 0 hloop
                (fuses_loop_plain (read_fuses_action rd fuses) (fun _ _ _ => rfl) fuses 0
                  (next_cmd fuses) buf0)
            rw [open_brackets_append, hb]
            exact h2

theorem open_brackets_prefix (a b : List Ev) (k r : Nat)
    (h : open_brackets k (a ++ b) = some r) : ∃ j, open_brackets k a = some j := by
  rw [open_brackets_append] at h
  cases ha : open_brackets k a with
  | none => rw [ha] at h; simp at h
  | some j => exact ⟨j, rfl⟩

theorem is_read_command_plain (e : Ev) (h : is_read_command e = true) : is_plain e = true := by
  cases e <;> simp [is_read_command] at h <;> rfl

theorem split_before_last (pre post mid : List Ev) (e x : Ev) (hne : e ≠ x)
    (h : pre ++ e :: post = mid ++ [x]) : ∃ post', mid = pre ++ e :: post' := by
  rcases List.eq_nil_or_concat post with hp | ⟨post', y, hp⟩
  · subst hp
    have := List.append_inj' h rfl
    have h2 : e = x := by simpa using this.2
    exact absurd h2 hne
  · subst hp
    have h' : (pre ++ e :: post') ++ [y] = mid ++ [x] := by simpa using h
    exact ⟨post', (List.append_inj' h' rfl).1.symm⟩

/-- C15 fails on the code: when the output file does not open,
`action_read` has issued `minipro_begin_transaction` and the process ends in
`read_page_file` with no `minipro_end_transaction`; the same holds when
`malloc` fails, when `Config_init` fails, and when `read_fuses` finds the
declarations unsorted (then with two brackets open). -/
theorem action_read_fatal_exit_open :
    action_read_trace ⟨fun _ => false, fun _ => true, fun _ => true⟩ (fun _ => 0)
        (fun _ _ b => b) (List.replicate 11 0) page_t.CODE "p" ⟨2, 2, 4, 0, 0, none⟩
      = ⟨[Ev.minipro_begin_transaction], Outcome.fatal "Couldn't open file for writing"⟩ ∧
    ¬ well_bracketed
        (action_read_trace ⟨fun _ => false, fun _ => true, fun _ => true⟩ (fun _ => 0)
          (fun _ _ b => b) (List.replicate 11 0) page_t.CODE "p"
          ⟨2, 2, 4, 0, 0, none⟩).trace ∧
    action_read_trace ⟨fun _ => true, fun _ => false, fun _ => true⟩ (fun _ => 0)
        (fun _ _ b => b) (List.replicate 11 0) page_t.CODE "p" ⟨2, 2, 4, 0, 0, none⟩
      = ⟨[Ev.minipro_begin_transaction], Outcome.fatal "Can't malloc"⟩ ∧
    action_read_trace ⟨fun _ => true, fun _ => true, fun _ => false⟩ (fun _ => 0)
        (fun _ _ b => b) (List.replicate 11 0) page_t.CONFIG "p"
        ⟨2, 2, 4, 0, 0, some [⟨"a", 1, 1, 0⟩, ⟨"b", 2, 1, 0⟩]⟩
      = ⟨[Ev.minipro_begin_transaction], Outcome.fatal "Couldn't create config"⟩ ∧
    action_read_trace ⟨fun _ => true, fun _ => true, fun _ => true⟩ (fun _ => 0)
        (fun _ _ b => b) (List.replicate 11 0) page_t.CONFIG "p"
        ⟨2, 2, 4, 0, 0, some [⟨"a", 2, 1, 0⟩, ⟨"b", 1, 1, 0⟩]⟩
      = ⟨[Ev.minipro_begin_transaction, Ev.minipro_begin_transaction],
          Outcome.fatal "fuse_decls are not sorted"⟩ := by
  decide

/-- Whenever `action_read` returns (no file, allocation, configuration or
sortedness error ends the process inside it), its trace starts with
`minipro_begin_transaction`, ends with the matching
`minipro_end_transaction` (what lies between is well bracketed by itself),
is well bracketed, and every block read and fuse read happens with at least
one bracket open. -/
theorem action_read_single_bracket (env : file_env) (code : mp_type → Nat)
    (rd : Nat → Int → List Nat → List Nat) (buf0 : List Nat) (page : page_t)
    (filename : String) (device : device_t)
    (hok : (action_read_trace env code rd buf0 page filename device).outcome = Outcome.ok) :
    ∃ mid, (action_read_trace env code rd buf0 page filename device).trace
        = Ev.minipro_begin_transaction :: (mid ++ [Ev.minipro_end_transaction]) ∧
      well_bracketed mid ∧
      well_bracketed (action_read_trace env code rd buf0 page filename device).trace ∧
      ∀ pre e post,
        (action_read_trace env code rd buf0 page filename device).trace = pre ++ e :: post →
        is_read_command e = true → ∃ j, open_brackets 0 pre = some (j + 1) := by
  obtain ⟨cs, hshape, hreg⟩ := action_read_shape page filename device
  unfold action_read_trace at hok ⊢
  rw [hshape] at hok ⊢
  simp only [action_read_run] at hok ⊢
  rw [and_then_ok _ _ rfl] at hok ⊢
  obtain ⟨mid, h1, h2⟩ := action_read_run_regions env code rd buf0 device cs hreg hok
  have htrace : Ev.minipro_begin_transaction ::
      (action_read_run env code rd buf0 device
        (cs ++ [read_call.minipro_end_transaction])).trace
        = Ev.minipro_begin_transaction :: (mid ++ [Ev.minipro_end_transaction]) := by
    rw [h1]
  refine ⟨mid, htrace, h2, ?_, ?_⟩
  · show open_brackets 0 _ = some 0
    simp only [List.singleton_append]
    rw [htrace]
    simp only [open_brackets]
    rw [open_brackets_append, open_brackets_shift mid 0 0 h2]
    simp [open_brackets]
  · intro pre e post heq hread
    simp only [List.singleton_append] at heq
    rw [htrace] at heq
    cases pre with
    | nil =>
      simp only [List.nil_append] at heq
      injection heq with he _
      rw [← he] at hread
      simp [is_read_command] at hread
    | cons p pre' =>
      simp only [List.cons_append] at heq
      injection heq with hp hrest
      subst hp
      have hne : e ≠ Ev.minipro_end_transaction := by
        intro h; rw [h] at hread; simp [is_read_command] at hread
      obtain ⟨post', hmid⟩ := split_before_last pre' post mid e _ hne hrest.symm
      rw [hmid] at h2
      obtain ⟨j, hj⟩ := open_brackets_prefix pre' (e :: post') 0 0 h2
      exact ⟨j, by simp only [open_brackets]; exact open_brackets_shift pre' 0 j hj⟩

/-! ## Progress reports -/

theorem read_page_ram_loop_at (device : device_t) (type size bc : Nat) (rest : List Ev) :
    ∀ todo i j, j < todo →
      (read_page_ram_loop device type size bc todo i ++ rest)[2 * j]?
          = some (Ev.update_status ((i + j) * 100 / bc)) ∧
      (read_page_ram_loop device type size bc todo i ++ rest)[2 * j + 1]?
          = some (Ev.minipro_read_block type (read_block_at device size (i + j)).addr
              (read_block_at device size (i + j)).off (read_block_at device size (i + j)).len) := by
  intro todo
  induction todo with
  | zero => intro i j hj; omega
  | succ n ih =>
    intro i j hj
    cases j with
    | zero =>
      simp [read_page_ram_loop, read_page_ram_body, read_block_at, block_addr, block_len]
    | succ j =>
      have h := ih (i + 1) j (by omega)
      have e1 : 2 * (j + 1) = 2 * j + 1 + 1 := by omega
      have e2 : i + 1 + j = i + (j + 1) := by omega
      rw [e2] at h
      simp only [read_page_ram_loop, read_page_ram_body, List.cons_append, List.nil_append]
      rw [e1]
      simp only [List.getElem?_cons_succ]
      exact h

theorem write_page_ram_loop_at (device : device_t) (type size bc : Nat) (rest : List Ev) :
    ∀ todo i j, j < todo →
      (write_page_ram_loop device type size bc todo i ++ rest)[2 * j]?
          = some (Ev.update_status ((i + j) * 100 / bc)) ∧
      (write_page_ram_loop device type size bc todo i ++ rest)[2 * j + 1]?
          = some (Ev.minipro_write_block type (write_block_at device size (i + j)).addr
              (write_block_at device size (i + j)).off
              (write_block_at device size (i + j)).len) := by
  intro todo
  induction todo with
  | zero => intro i j hj; omega
  | succ n ih =>
    intro i j hj
    cases j with
    | zero =>
      simp [write_page_ram_loop, write_page_ram_body, write_block_at, block_addr, block_len]
    | succ j =>
      have h := ih (i + 1) j (by omega)
      have e1 : 2 * (j + 1) = 2 * j + 1 + 1 := by omega
      have e2 : i + 1 + j = i + (j + 1) := by omega
      rw [e2] at h
      simp only [write_page_ram_loop, write_page_ram_body, List.cons_append, List.nil_append]
      rw [e1]
      simp only [List.getElem?_cons_succ]
      exact h

theorem read_page_ram_loop_length (device : device_t) (type size bc : Nat) :
    ∀ todo i, (read_page_ram_loop device type size bc todo i).length = 2 * todo := by
  intro todo
  induction todo with
  | zero => intro i; rfl
  | succ n ih =>
    intro i
    simp only [read_page_ram_loop, read_page_ram_body, List.length_append, List.length_cons,
      List.length_nil, ih]
    omega

theorem write_page_ram_loop_length (device : device_t) (type size bc : Nat) :
    ∀ todo i, (write_page_ram_loop device type size bc todo i).length = 2 * todo := by
  intro todo
  induction todo with
  | zero => intro i; rfl
  | succ n ih =>
    intro i
    simp only [write_page_ram_loop, write_page_ram_body, List.length_append, List.length_cons,
      List.length_nil, ih]
    omega

/-- C17 fails on the code as stated: in a transfer of two blocks the values
reported are 0 before the first block and 50 after it; after the second,
last block "OK" is reported and 100 never is; in a transfer of one block only
0 and "OK" are reported. -/
theorem progress_never_reaches_100 :
    read_page_ram ⟨64, 64, 128, 0, 0, none⟩ 0 128
      = [Ev.update_status 0, Ev.minipro_read_block 0 0 0 64,
          Ev.update_status 50, Ev.minipro_read_block 0 64 64 64, Ev.update_status_OK] ∧
    progress_reports (write_page_ram ⟨64, 64, 128, 0, 0, none⟩ 0 128)
      = [some 0, some 50, none] ∧
    progress_reports (read_page_ram ⟨64, 64, 128, 0, 0, none⟩ 0 64) = [some 0, none] := by
  decide

/-- C17, amended: in a transfer of `n` blocks by `read_page_ram` or
`write_page_ram` the calls are, for `k = 0 .. n-1` in turn, the report of
`floor(100 * k / n)` followed by the transfer of block `k` (so the value is
reported when `k` blocks have been transferred, before the next one), and
after the last block the report "OK". -/
theorem progress_reported_before_each_block (device : device_t) (type size : Nat) :
    ((∀ k, k < read_blocks_count device size →
        (read_page_ram device type size)[2 * k]?
          = some (Ev.update_status (k * 100 / read_blocks_count device size)) ∧
        (read_page_ram device type size)[2 * k + 1]?
          = some (Ev.minipro_read_block type (read_block_at device size k).addr
              (read_block_at device size k).off (read_block_at device size k).len)) ∧
      (read_page_ram device type size)[2 * read_blocks_count device size]?
        = some Ev.update_status_OK ∧
      (read_page_ram device type size).length = 2 * read_blocks_count device size + 1) ∧
    ((∀ k, k < write_blocks_count device size →
        (write_page_ram device type size)[2 * k]?
          = some (Ev.update_status (k * 100 / write_blocks_count device size)) ∧
        (write_page_ram device type size)[2 * k + 1]?
          = some (Ev.minipro_write_block type (write_block_at device size k).addr
              (write_block_at device size k).off (write_block_at device size k).len)) ∧
      (write_page_ram device type size)[2 * write_blocks_count device size]?
        = some Ev.update_status_OK ∧
      (write_page_ram device type size).length = 2 * write_blocks_count device size + 1) := by
  constructor
  · refine ⟨?_, ?_, ?_⟩
    · intro k hk
      have h := read_page_ram_loop_at device type size (read_blocks_count device size)
        [Ev.update_status_OK] (read_blocks_count device size) 0 k hk
      simp only [Nat.zero_add] at h
      exact h
    · unfold read_page_ram
      simp only
      rw [List.getElem?_append_right (by rw [read_page_ram_loop_length])]
      rw [read_page_ram_loop_length]
      simp
    · unfold read_page_ram
      simp only [List.length_append, read_page_ram_loop_length, List.length_cons,
        List.length_nil]
  · refine ⟨?_, ?_, ?_⟩
    · intro k hk
      have h := write_page_ram_loop_at device type size (write_blocks_count device size)
        [Ev.update_status_OK] (write_blocks_count device size) 0 k hk
      simp only [Nat.zero_add] at h
      exact h
    · unfold write_page_ram
      simp only
      rw [List.getElem?_append_right (by rw [write_page_ram_loop_length])]
      rw [write_page_ram_loop_length]
      simp
    · unfold write_page_ram
      simp only [List.length_append, write_page_ram_loop_length, List.length_cons,
        List.length_nil]

/-- Witness for C17: the second of two 64-byte blocks is preceded by the
report of 50. -/
theorem progress_reported_before_each_block_witness :
    1 < read_blocks_count ⟨64, 64, 128, 0, 0, none⟩ 128 ∧
    (read_page_ram ⟨64, 64, 128, 0, 0, none⟩ 0 128)[2 * 1]? = some (Ev.update_status 50) ∧
    (write_page_ram ⟨64, 64, 128, 0, 0, none⟩ 0 128)[2 * 1 + 1]?
      = some (Ev.minipro_write_block 0 64 64 64) :=
  ⟨by decide,
   ((progress_reported_before_each_block ⟨64, 64, 128, 0, 0, none⟩ 0 128).1.1 1
      (by decide)).1,
   ((progress_reported_before_each_block ⟨64, 64, 128, 0, 0, none⟩ 0 128).2.1 1
      (by decide)).2⟩

end Minipro
